import Mathlib

/-!
Verification of the tile-atlas compression and hardware tilemap layout engine
of the butano-auxiliary repository (tilemap_compressor.py, tilemap_minimizer.py,
mapdata_generator.py, mapdata_models.py).

The Python code is shallowly embedded: PIL images become pixel functions
from coordinates to RGB triples, the per-tile dictionary records of
compare_tiles become a TileRec structure, the mutable record list becomes a
function from raster index to TileRec updated pointwise, and the nested
for-loops become folds over index ranges.  Fallible code (OverflowError,
sys.exit, unbound locals) is modelled with Except over an error type.
-/

namespace Butano

/-- An RGB color triple, as returned by PIL getpixel on an RGB image. -/
abbrev Color := Nat × Nat × Nat

/-- An image as a pixel function: for an image f, the value f x y is the color
at column x and row y.  The Python sources only ever read pixels inside the
image bounds, so out-of-range coordinates carry no information. -/
abbrev Image := Nat → Nat → Color

/-- Source: tilemap_src.crop((x*8, y*8, (x+1)*8, (y+1)*8)) — the 8x8 tile at
tile-grid position (x, y) of the atlas. -/
def cropTile (img : Image) (x y : Nat) : Image :=
  fun px py => img (x * 8 + px) (y * 8 + py)

/-- The 8x8 tile of raster cell t of an atlas with the given number of tile
columns (cell t sits at column t % cols, row t / cols). -/
def tileAt (img : Image) (cols t : Nat) : Image :=
  cropTile img (t % cols) (t / cols)

/-- Pixel-exact equality of two 8x8 blocks, pointwise on the 64 positions. -/
def EqOn8 (left right : Image) : Prop :=
  ∀ x < 8, ∀ y < 8, left x y = right x y

instance (left right : Image) : Decidable (EqOn8 left right) := by
  unfold EqOn8; infer_instance

/-- Source: tile_compare of tilemap_compressor.py (identical to pixel_compare
of tilemap_minimizer.py).  Compares all 64 pixel positions of two 8x8 tiles
for exact RGB equality (the numpy subtract test is zero iff the triples are
equal). -/
def tile_compare (left right : Image) : Bool :=
  decide (EqOn8 left right)

/-- Source: PIL ImageOps.flip on an 8x8 tile — top-bottom mirror. -/
def flipTB (t : Image) : Image := fun x y => t x (7 - y)

/-- Source: PIL Image.rotate(180) on an 8x8 tile. -/
def rotate180 (t : Image) : Image := fun x y => t (7 - x) (7 - y)

/-- One entry of the tilemap_tiles list built by compare_tiles: the Python
dictionary with keys unique, relative, h_flipped, v_flipped and
non_unique_tile_count. -/
structure TileRec where
  unique : Bool := true
  relative : Nat × Nat := (0, 0)
  h_flipped : Bool := false
  v_flipped : Bool := false
  non_unique_tile_count : Nat := 0
deriving Repr, DecidableEq

/-- The record list of compare_tiles, as a function from raster index. -/
abbrev DedupMap := Nat → TileRec

/-- Pointwise update of one record, modelling a mutation of one list entry. -/
def setRec (m : DedupMap) (t : Nat) (r : TileRec) : DedupMap :=
  fun t' => if t' = t then r else m t'

/-- The list comprehension seeding tilemap_tiles: every record starts unique,
with relative (0,0), no flips and count 0. -/
def initRecs : DedupMap := fun _ => {}

/-- Source: the inner comparison chain of compare_tiles for one compared cell
(i, j), with candidate cell (x, y).  The four tests run in the source order:
plain comparison, ImageOps.flip, rotate(180), and rotate(180) followed by
ImageOps.flip; the first match mutates the compared cell's record exactly as
the corresponding Python branch does (only the listed fields are written). -/
def markStep (img : Image) (cols x y : Nat) (rs : DedupMap) (i j : Nat) : DedupMap :=
  let tile := cropTile img x y
  let ct := cropTile img i j
  let t := j * cols + i
  if tile_compare tile ct then
    setRec rs t { rs t with unique := false, relative := (x, y) }
  else if tile_compare tile (flipTB ct) then
    setRec rs t { rs t with unique := false, relative := (x, y), v_flipped := true }
  else if tile_compare tile (rotate180 ct) then
    setRec rs t { rs t with unique := false, relative := (x, y),
                            v_flipped := true, h_flipped := true }
  else if tile_compare tile (flipTB (rotate180 ct)) then
    setRec rs t { rs t with unique := false, relative := (x, y), h_flipped := true }
  else rs

/-- Source: the two inner loops of compare_tiles — for j in range(y, rows),
for i in range(columns), skipping the cells at or before the candidate in its
own row (j == y and i <= x). -/
def scanTargets (img : Image) (cols rows x y : Nat) (rs : DedupMap) : DedupMap :=
  (List.range' y (rows - y)).foldl (fun rs' j =>
    (List.range cols).foldl (fun rs'' i =>
      if j = y ∧ i ≤ x then rs''
      else markStep img cols x y rs'' i j) rs') rs

/-- Source: the final counting loops of compare_tiles. -/
def countUniqueRecs (rs : DedupMap) (cols rows : Nat) : Nat :=
  (List.range rows).foldl (fun n y =>
    (List.range cols).foldl (fun n' x =>
      if (rs (y * cols + x)).unique then n' + 1 else n') n) 0

/-- Source: compare_tiles of tilemap_compressor.py (identical algorithm to
compare_tiles of tilemap_minimizer.py).  Iterates candidate cells in raster
order, skipping cells already marked non-unique, and lets each remaining
candidate claim every later matching cell.  Returns the record table and the
number of unique tiles. -/
def compare_tiles (img : Image) (cols rows : Nat) : DedupMap × Nat :=
  let recs := (List.range rows).foldl (fun rs y =>
    (List.range cols).foldl (fun rs' x =>
      if (rs' (y * cols + x)).unique = false then rs'
      else scanTargets img cols rows x y rs') rs) initRecs
  (recs, countUniqueRecs recs cols rows)

end Butano

namespace Butano

/-- The priority-ordered transform test of compare_tiles, abstracted from the
branch chain of markStep: the result carries the (h_flipped, v_flipped) pair
of the first matching transform, or none when no transform matches. -/
def classify (tile ct : Image) : Option (Bool × Bool) :=
  if tile_compare tile ct then some (false, false)
  else if tile_compare tile (flipTB ct) then some (false, true)
  else if tile_compare tile (rotate180 ct) then some (true, true)
  else if tile_compare tile (flipTB (rotate180 ct)) then some (true, false)
  else none

/-- Record mutation performed by a successful match: unique is cleared, the
candidate position is recorded, and each flip flag is set (never cleared)
when the matching transform requires it. -/
def markRec (r : TileRec) (x y : Nat) (hv : Bool × Bool) : TileRec :=
  { r with unique := false, relative := (x, y),
           h_flipped := hv.1 || r.h_flipped,
           v_flipped := hv.2 || r.v_flipped }

theorem markStep_eq (img : Image) (cols x y : Nat) (rs : DedupMap) (i j : Nat) :
    markStep img cols x y rs i j =
      match classify (cropTile img x y) (cropTile img i j) with
      | some hv => setRec rs (j * cols + i) (markRec (rs (j * cols + i)) x y hv)
      | none => rs := by
  simp only [markStep, classify, markRec]
  split_ifs <;> rfl

/-- Coordinate flip helper: the mirrored coordinate inside an 8-wide block. -/
def flipc (b : Bool) (z : Nat) : Nat := if b then 7 - z else z

/-- Applying an (h, v) flip pair to an 8x8 tile. -/
def applyT (h v : Bool) (t : Image) : Image :=
  fun x y => t (flipc h x) (flipc v y)

theorem flipc_lt (b : Bool) {z : Nat} (hz : z < 8) : flipc b z < 8 := by
  cases b <;> simp [flipc] <;> omega

theorem flipc_flipc (b : Bool) {z : Nat} (hz : z < 8) : flipc b (flipc b z) = z := by
  cases b <;> simp [flipc] <;> omega

theorem tile_compare_iff (a b : Image) : tile_compare a b = true ↔ EqOn8 a b := by
  simp [tile_compare]

theorem eqOn8_refl (a : Image) : EqOn8 a a := fun _ _ _ _ => rfl

theorem eqOn8_symm {a b : Image} (h : EqOn8 a b) : EqOn8 b a :=
  fun x hx y hy => (h x hx y hy).symm

theorem eqOn8_trans {a b c : Image} (h1 : EqOn8 a b) (h2 : EqOn8 b c) : EqOn8 a c :=
  fun x hx y hy => (h1 x hx y hy).trans (h2 x hx y hy)

theorem eqOn8_applyT_congr {a b : Image} (h v : Bool) (h1 : EqOn8 a b) :
    EqOn8 (applyT h v a) (applyT h v b) := by
  intro x hx y hy
  exact h1 _ (flipc_lt h hx) _ (flipc_lt v hy)

theorem eqOn8_applyT_applyT (h v : Bool) (a : Image) :
    EqOn8 (applyT h v (applyT h v a)) a := by
  intro x hx y hy
  simp only [applyT, flipc_flipc h hx, flipc_flipc v hy]

theorem eqOn8_applyT_comp (h1 v1 h2 v2 : Bool) (a : Image) :
    EqOn8 (applyT h1 v1 (applyT h2 v2 a)) (applyT (xor h1 h2) (xor v1 v2) a) := by
  intro x hx y hy
  have hx' : flipc (xor h1 h2) x = flipc h2 (flipc h1 x) := by
    cases h1 <;> cases h2 <;> simp [flipc] <;> omega
  have hy' : flipc (xor v1 v2) y = flipc v2 (flipc v1 y) := by
    cases v1 <;> cases v2 <;> simp [flipc] <;> omega
  simp only [applyT, hx', hy']

theorem flipTB_eqOn8 (a : Image) : EqOn8 (flipTB a) (applyT false true a) := by
  intro x hx y hy; rfl

theorem rotate180_eqOn8 (a : Image) : EqOn8 (rotate180 a) (applyT true true a) := by
  intro x hx y hy; rfl

theorem flipTB_rotate180_eqOn8 (a : Image) :
    EqOn8 (flipTB (rotate180 a)) (applyT true false a) := by
  intro x hx y hy
  show a (7 - x) (7 - (7 - y)) = a (flipc true x) (flipc false y)
  have h1 : flipc true x = 7 - x := rfl
  have h2 : flipc false y = y := rfl
  rw [h1, h2]
  congr 1
  omega

/-- A successful classify result means the candidate tile equals the compared
tile transformed by the recorded flip pair, on the 8x8 domain. -/
theorem classify_some_eqOn {tile ct : Image} {h v : Bool}
    (hc : classify tile ct = some (h, v)) : EqOn8 tile (applyT h v ct) := by
  unfold classify at hc
  split_ifs at hc with h1 h2 h3 h4 <;>
    simp only [Option.some.injEq, Prod.mk.injEq] at hc
  · obtain ⟨rfl, rfl⟩ := hc
    intro x hx y hy
    exact (tile_compare_iff _ _).1 h1 x hx y hy
  · obtain ⟨rfl, rfl⟩ := hc
    exact eqOn8_trans ((tile_compare_iff _ _).1 h2) (flipTB_eqOn8 ct)
  · obtain ⟨rfl, rfl⟩ := hc
    exact eqOn8_trans ((tile_compare_iff _ _).1 h3) (rotate180_eqOn8 ct)
  · obtain ⟨rfl, rfl⟩ := hc
    exact eqOn8_trans ((tile_compare_iff _ _).1 h4) (flipTB_rotate180_eqOn8 ct)

/-- If the candidate equals some flip transform of the compared tile then
classify finds a match (not necessarily the same pair, the chain keeps the
first hit). -/
theorem classify_ne_none_of_eqOn {tile ct : Image} {h v : Bool}
    (he : EqOn8 tile (applyT h v ct)) : classify tile ct ≠ none := by
  have key : tile_compare tile ct = true ∨ tile_compare tile (flipTB ct) = true ∨
      tile_compare tile (rotate180 ct) = true ∨
      tile_compare tile (flipTB (rotate180 ct)) = true := by
    cases h <;> cases v
    · exact Or.inl ((tile_compare_iff _ _).2 he)
    · exact Or.inr (Or.inl ((tile_compare_iff _ _).2 he))
    · exact Or.inr (Or.inr (Or.inr ((tile_compare_iff _ _).2
        (eqOn8_trans he (eqOn8_symm (flipTB_rotate180_eqOn8 ct))))))
    · exact Or.inr (Or.inr (Or.inl ((tile_compare_iff _ _).2 he)))
  unfold classify
  split_ifs with h1 h2 h3 h4
  · exact fun hc => Option.noConfusion hc
  · exact fun hc => Option.noConfusion hc
  · exact fun hc => Option.noConfusion hc
  · exact fun hc => Option.noConfusion hc
  · rcases key with hk | hk | hk | hk
    exacts [absurd hk h1, absurd hk h2, absurd hk h3, absurd hk h4]

/-- Group closure of the four transforms: two tiles both matching a common
compared tile must match each other. -/
theorem classify_closure {a b c : Image} {hv1 hv2 : Bool × Bool}
    (h1 : classify a b = some hv1) (h2 : classify c b = some hv2) :
    classify c a ≠ none := by
  obtain ⟨g1, f1⟩ := hv1
  obtain ⟨g2, f2⟩ := hv2
  have ea : EqOn8 a (applyT g1 f1 b) := classify_some_eqOn h1
  have ec : EqOn8 c (applyT g2 f2 b) := classify_some_eqOn h2
  have eb : EqOn8 b (applyT g1 f1 a) := by
    have h1' := eqOn8_applyT_congr g1 f1 ea
    have h2' := eqOn8_applyT_applyT g1 f1 b
    exact eqOn8_symm (eqOn8_trans h1' h2')
  have : EqOn8 c (applyT (xor g2 g1) (xor f2 f1) a) := by
    refine eqOn8_trans ec ?_
    refine eqOn8_trans (eqOn8_applyT_congr g2 f2 eb) ?_
    exact eqOn8_applyT_comp g2 f2 g1 f1 a
  exact classify_ne_none_of_eqOn this

end Butano

namespace Butano

theorem foldl_congr_mem {α : Type _} {f g : α → Nat → α} :
    ∀ (l : List Nat), (∀ (a : α) (t : Nat), t ∈ l → f a t = g a t) →
      ∀ a, l.foldl f a = l.foldl g a := by
  intro l
  induction l with
  | nil => intro _ _; rfl
  | cons hd tl ih =>
      intro h a
      simp only [List.foldl_cons]
      rw [h a hd (List.mem_cons_self hd tl)]
      exact ih (fun a' t ht => h a' t (List.mem_cons_of_mem hd ht)) _

theorem foldl_skip_all {α : Type _} {g : α → Nat → α} {P : Nat → Prop} [DecidablePred P]
    (l : List Nat) (hall : ∀ t ∈ l, P t) (a : α) :
    l.foldl (fun s t => if P t then s else g s t) a = a := by
  induction l generalizing a with
  | nil => rfl
  | cons hd tl ih =>
      simp only [List.foldl_cons, if_pos (hall hd (List.mem_cons_self hd tl))]
      exact ih (fun t ht => hall t (List.mem_cons_of_mem hd ht)) a

theorem foldl_mono_pred {α : Type _} {g : α → Nat → α} {Q : α → Prop}
    (hg : ∀ a t, Q a → Q (g a t)) :
    ∀ (l : List Nat) (a : α), Q a → Q (l.foldl g a) := by
  intro l
  induction l with
  | nil => exact fun a h => h
  | cons hd tl ih => exact fun a h => ih _ (hg a hd h)

/-- Flattening a row-major nested fold over a rectangle into a single fold
over raster indices. -/
theorem raster_mod_of_row {q x cols : Nat} (hxc : x < cols) : (q * cols + x) % cols = x := by
  rw [Nat.add_comm, Nat.add_mul_mod_self_right, Nat.mod_eq_of_lt hxc]

theorem raster_div_of_row {q x cols : Nat} (hxc : x < cols) : (q * cols + x) / cols = q := by
  have hcpos : 0 < cols := Nat.lt_of_le_of_lt (Nat.zero_le _) hxc
  rw [Nat.add_comm, Nat.add_mul_div_right _ _ hcpos, Nat.div_eq_of_lt hxc, Nat.zero_add]

theorem foldl_nested_eq {α : Type _} (f : α → Nat → Nat → α) :
    ∀ (rows cols : Nat) (a : α),
      (List.range rows).foldl (fun s y => (List.range cols).foldl (fun s' x => f s' x y) s) a =
      (List.range (rows * cols)).foldl (fun s t => f s (t % cols) (t / cols)) a := by
  intro rows
  induction rows with
  | zero => intro cols a; rw [Nat.zero_mul]; rfl
  | succ r ih =>
      intro cols a
      rw [List.range_succ, List.foldl_append, ih cols a]
      have hsz : (r + 1) * cols = r * cols + cols := by ring
      rw [hsz, List.range_add, List.foldl_append, List.foldl_map]
      simp only [List.foldl_cons, List.foldl_nil]
      refine foldl_congr_mem _ ?_ _
      intro s x hx
      have hxc : x < cols := List.mem_range.1 hx
      rw [raster_mod_of_row hxc, raster_div_of_row hxc]

/-- The same flattening for a fold whose rows run from a starting row. -/
theorem foldl_nested_range'_eq {α : Type _} (f : α → Nat → Nat → α) :
    ∀ (m y cols : Nat) (a : α),
      (List.range' y m).foldl (fun s j => (List.range cols).foldl (fun s' i => f s' i j) s) a =
      (List.range' (y * cols) (m * cols)).foldl (fun s t => f s (t % cols) (t / cols)) a := by
  intro m
  induction m with
  | zero => intro y cols a; rw [Nat.zero_mul]; rfl
  | succ m ih =>
      intro y cols a
      rw [List.range'_succ, List.foldl_cons]
      have hsplit : List.range' (y * cols) ((m + 1) * cols) =
          List.range' (y * cols) cols ++ List.range' (y * cols + cols) (m * cols) := by
        have h2 := List.range'_append (y * cols) cols (m * cols) 1
        simp only [Nat.one_mul, Nat.mul_one] at h2
        have hsz : (m + 1) * cols = m * cols + cols := by ring
        rw [hsz]
        exact h2.symm
      rw [hsplit, List.foldl_append]
      have hfirst : ∀ (s : α), (List.range' (y * cols) cols).foldl
          (fun s t => f s (t % cols) (t / cols)) s =
          (List.range cols).foldl (fun s' i => f s' i y) s := by
        intro s
        rw [List.range'_eq_map_range, List.foldl_map]
        refine (foldl_congr_mem _ ?_ _).symm
        intro a' x hx
        have hxc : x < cols := List.mem_range.1 hx
        rw [raster_mod_of_row hxc, raster_div_of_row hxc]
      rw [hfirst]
      have hnext : y * cols + cols = (y + 1) * cols := by ring
      rw [hnext, ih (y + 1) cols]

theorem foldl_count_eq_filter_length {P : Nat → Bool} :
    ∀ (l : List Nat) (a : Nat),
      l.foldl (fun n t => if P t then n + 1 else n) a = a + (l.filter P).length := by
  intro l
  induction l with
  | nil => intro a; simp
  | cons hd tl ih =>
      intro a
      by_cases h : P hd
      · simp [List.foldl_cons, List.filter_cons, h, ih, Nat.add_assoc, Nat.add_comm 1]
      · simp [List.foldl_cons, List.filter_cons, h, ih]

end Butano

namespace Butano

theorem setRec_same (m : DedupMap) (t : Nat) (r : TileRec) : setRec m t r t = r := by
  simp [setRec]

theorem setRec_other (m : DedupMap) (t : Nat) (r : TileRec) {t' : Nat} (h : t' ≠ t) :
    setRec m t r t' = m t' := by
  simp [setRec, h]

/-- One target comparison of the deduplication scan, indexed by raster
positions of the candidate cell c and the compared cell t. -/
def dedupTargetStep (img : Image) (cols c : Nat) (rs : DedupMap) (t : Nat) : DedupMap :=
  markStep img cols (c % cols) (c / cols) rs (t % cols) (t / cols)

/-- The inner scan of compare_tiles in flat form: the compared cells are
exactly the raster positions strictly after the candidate c. -/
def scanFlat (img : Image) (cols N c : Nat) (rs : DedupMap) : DedupMap :=
  (List.range' (c + 1) (N - (c + 1))).foldl (dedupTargetStep img cols c) rs

theorem scanTargets_eq_flat (img : Image) (cols rows x y : Nat) (rs : DedupMap)
    (hx : x < cols) (hy : y < rows) :
    scanTargets img cols rows x y rs = scanFlat img cols (rows * cols) (y * cols + x) rs := by
  unfold scanTargets
  rw [foldl_nested_range'_eq (fun s i j => if j = y ∧ i ≤ x then s else markStep img cols x y s i j)]
  have hyc : y * cols ≤ rows * cols := Nat.mul_le_mul_right cols (Nat.le_of_lt hy)
  have hsub : (rows - y) * cols = rows * cols - y * cols := Nat.sub_mul rows y cols
  have hx1 : x + 1 ≤ (rows - y) * cols := by
    have h1 : 1 ≤ rows - y := by omega
    have h2 : cols ≤ (rows - y) * cols := by
      calc cols = 1 * cols := (Nat.one_mul cols).symm
      _ ≤ (rows - y) * cols := Nat.mul_le_mul_right cols h1
    omega
  have hsplit : List.range' (y * cols) ((rows - y) * cols) =
      List.range' (y * cols) (x + 1) ++
      List.range' (y * cols + (x + 1)) ((rows - y) * cols - (x + 1)) := by
    have h2 := List.range'_append (y * cols) (x + 1) ((rows - y) * cols - (x + 1)) 1
    simp only [Nat.one_mul, Nat.mul_one] at h2
    rw [h2]
    congr 1
    omega
  rw [hsplit, List.foldl_append]
  have hskip : (List.range' (y * cols) (x + 1)).foldl
      (fun s t => if t / cols = y ∧ t % cols ≤ x then s
                  else markStep img cols x y s (t % cols) (t / cols)) rs = rs := by
    refine foldl_skip_all _ ?_ rs
    intro t ht
    rw [List.mem_range'_1] at ht
    obtain ⟨hlo, hhi⟩ := ht
    have hd : t = y * cols + (t - y * cols) := by omega
    have hlt : t - y * cols ≤ x := by omega
    have hxlt : t - y * cols < cols := by omega
    constructor
    · rw [hd]; exact raster_div_of_row hxlt
    · rw [hd, raster_mod_of_row hxlt]; exact hlt
  rw [hskip]
  unfold scanFlat
  have hlen : (rows - y) * cols - (x + 1) = rows * cols - (y * cols + x + 1) := by omega
  have hstart : y * cols + (x + 1) = y * cols + x + 1 := by omega
  rw [hstart, hlen]
  refine foldl_congr_mem _ ?_ rs
  intro s t ht
  rw [List.mem_range'_1] at ht
  obtain ⟨hlo, hhi⟩ := ht
  have hcpos : 0 < cols := Nat.lt_of_le_of_lt (Nat.zero_le x) hx
  have hnot : ¬(t / cols = y ∧ t % cols ≤ x) := by
    rintro ⟨hdiv, hmod⟩
    have hdm := Nat.div_add_mod t cols
    rw [hdiv] at hdm
    have hcm : cols * y = y * cols := Nat.mul_comm cols y
    omega
  rw [if_neg hnot]
  unfold dedupTargetStep
  have hm : (y * cols + x) % cols = x := raster_mod_of_row hx
  have hd : (y * cols + x) / cols = y := raster_div_of_row hx
  rw [hm, hd]

/-- One candidate step of compare_tiles in flat form. -/
def dedupCandStep (img : Image) (cols rows : Nat) (rs : DedupMap) (c : Nat) : DedupMap :=
  if (rs c).unique = false then rs else scanFlat img cols (rows * cols) c rs

theorem compare_tiles_fst_eq (img : Image) (cols rows : Nat) :
    (compare_tiles img cols rows).1 =
      (List.range (rows * cols)).foldl (dedupCandStep img cols rows) initRecs := by
  show ((List.range rows).foldl _ initRecs) = _
  rw [foldl_nested_eq (fun rs x y => if (rs (y * cols + x)).unique = false then rs
        else scanTargets img cols rows x y rs) rows cols initRecs]
  refine foldl_congr_mem _ ?_ initRecs
  intro rs t ht
  have htN : t < rows * cols := List.mem_range.1 ht
  have hcpos : 0 < cols := by
    rcases Nat.eq_zero_or_pos cols with h | h
    · subst h; simp at htN
    · exact h
  have hid : t / cols * cols + t % cols = t := by
    have h1 := Nat.div_add_mod t cols
    have h2 : cols * (t / cols) = t / cols * cols := Nat.mul_comm _ _
    omega
  rw [hid]
  unfold dedupCandStep
  by_cases hu : (rs t).unique = false
  · rw [if_pos hu, if_pos hu]
  · rw [if_neg hu, if_neg hu]
    have hdl : t / cols < rows := by
      refine (Nat.div_lt_iff_lt_mul hcpos).2 ?_
      omega
    rw [scanTargets_eq_flat img cols rows (t % cols) (t / cols) rs (Nat.mod_lt t hcpos) hdl]
    rw [hid]

theorem countUniqueRecs_eq (rs : DedupMap) (cols rows : Nat) :
    countUniqueRecs rs cols rows =
      ((List.range (rows * cols)).filter (fun t => (rs t).unique)).length := by
  unfold countUniqueRecs
  rw [foldl_nested_eq (fun n x y => if (rs (y * cols + x)).unique then n + 1 else n) rows cols 0]
  have hc : ∀ (a : Nat) (t : Nat), t ∈ List.range (rows * cols) →
      (if (rs (t / cols * cols + t % cols)).unique then a + 1 else a) =
      (if (rs t).unique then a + 1 else a) := by
    intro a t ht
    have hid : t / cols * cols + t % cols = t := by
      have h1 := Nat.div_add_mod t cols
      have h2 : cols * (t / cols) = t / cols * cols := Nat.mul_comm _ _
      omega
    rw [hid]
  rw [foldl_congr_mem _ hc 0]
  rw [foldl_count_eq_filter_length]
  omega

end Butano

namespace Butano

theorem div_mul_add_mod (t cols : Nat) : t / cols * cols + t % cols = t := by
  have h1 := Nat.div_add_mod t cols
  have h2 : cols * (t / cols) = t / cols * cols := Nat.mul_comm _ _
  omega

/-- Invariant of the deduplication pass after the first c candidate cells have
been processed: unique records are untouched, every non-unique record points
back to a strictly earlier, still unique candidate whose tile matches it under
the recorded flip pair (as found by the priority-ordered transform chain), and
every processed unique candidate has already claimed all matching later
cells. -/
structure DedupInv (img : Image) (cols rows c : Nat) (rs : DedupMap) : Prop where
  uniq_default : ∀ t, (rs t).unique = true → rs t = {}
  canonical : ∀ t, (rs t).unique = false →
    ∃ p, p < t ∧ p < c ∧ (rs p).unique = true ∧
      (rs t).relative = (p % cols, p / cols) ∧
      classify (tileAt img cols p) (tileAt img cols t) =
        some ((rs t).h_flipped, (rs t).v_flipped) ∧
      (rs t).non_unique_tile_count = 0
  complete : ∀ p, p < c → (rs p).unique = true →
    ∀ t, p < t → t < rows * cols →
      classify (tileAt img cols p) (tileAt img cols t) ≠ none →
      (rs t).unique = false

/-- Mid-scan invariant while candidate c is claiming matching cells. -/
structure ScanInv (img : Image) (cols rows c : Nat) (rs : DedupMap) : Prop where
  cand_uniq : (rs c).unique = true
  uniq_default : ∀ t, (rs t).unique = true → rs t = {}
  canonical : ∀ t, (rs t).unique = false →
    ∃ p, p < t ∧ p < c + 1 ∧ (rs p).unique = true ∧
      (rs t).relative = (p % cols, p / cols) ∧
      classify (tileAt img cols p) (tileAt img cols t) =
        some ((rs t).h_flipped, (rs t).v_flipped) ∧
      (rs t).non_unique_tile_count = 0
  complete : ∀ p, p < c → (rs p).unique = true →
    ∀ t, p < t → t < rows * cols →
      classify (tileAt img cols p) (tileAt img cols t) ≠ none →
      (rs t).unique = false

theorem dedupTargetStep_eq (img : Image) (cols c : Nat) (rs : DedupMap) (t : Nat) :
    dedupTargetStep img cols c rs t =
      match classify (tileAt img cols c) (tileAt img cols t) with
      | some hv => setRec rs t (markRec (rs t) (c % cols) (c / cols) hv)
      | none => rs := by
  unfold dedupTargetStep
  rw [markStep_eq, div_mul_add_mod]
  rfl

theorem scanStep_inv (img : Image) (cols rows c : Nat) (hcN : c < rows * cols)
    (rs : DedupMap) (t : Nat) (ht1 : c < t) (ht2 : t < rows * cols)
    (hinv : ScanInv img cols rows c rs) :
    ScanInv img cols rows c (dedupTargetStep img cols c rs t) ∧
    (classify (tileAt img cols c) (tileAt img cols t) ≠ none →
      (dedupTargetStep img cols c rs t t).unique = false) ∧
    (∀ t', (rs t').unique = false → (dedupTargetStep img cols c rs t t').unique = false) ∧
    (∀ t', t' ≠ t → dedupTargetStep img cols c rs t t' = rs t') := by
  rw [dedupTargetStep_eq]
  cases hcl : classify (tileAt img cols c) (tileAt img cols t) with
  | none =>
      exact ⟨hinv, fun hne => absurd rfl hne, fun t' h' => h', fun t' _ => rfl⟩
  | some hv =>
      obtain ⟨hb, vb⟩ := hv
      have hred : (match (some (hb, vb) : Option (Bool × Bool)) with
          | some hv => setRec rs t (markRec (rs t) (c % cols) (c / cols) hv)
          | none => rs) = setRec rs t (markRec (rs t) (c % cols) (c / cols) (hb, vb)) := rfl
      rw [hred]
      have hct : c ≠ t := Nat.ne_of_lt ht1
      have hfields : (rs t).non_unique_tile_count = 0 ∧
          (hb || (rs t).h_flipped) = hb ∧ (vb || (rs t).v_flipped) = vb := by
        cases hu : (rs t).unique with
        | true =>
            have hrt : rs t = {} := hinv.uniq_default t hu
            rw [hrt]
            simp
        | false =>
            obtain ⟨p, hp1, hp2, hp3, hp4, hp5, hp6⟩ := hinv.canonical t hu
            have hpc : p < c ∨ p = c := by omega
            rcases hpc with hplt | rfl
            · exfalso
              have hclos : classify (tileAt img cols p) (tileAt img cols c) ≠ none :=
                classify_closure hcl hp5
              have := hinv.complete p hplt hp3 c hplt hcN hclos
              rw [hinv.cand_uniq] at this
              exact Bool.noConfusion this
            · have hinj := hp5.symm.trans hcl
              simp only [Option.some.injEq, Prod.mk.injEq] at hinj
              obtain ⟨hinj1, hinj2⟩ := hinj
              rw [← hinj1, ← hinj2]
              simp [hp6]
      obtain ⟨hcnt0, hor1, hor2⟩ := hfields
      have f1 : (setRec rs t (markRec (rs t) (c % cols) (c / cols) (hb, vb)) t).unique = false := by
        rw [setRec_same]; rfl
      have f2 : (setRec rs t (markRec (rs t) (c % cols) (c / cols) (hb, vb)) t).relative =
          (c % cols, c / cols) := by
        rw [setRec_same]; rfl
      have f3 : (setRec rs t (markRec (rs t) (c % cols) (c / cols) (hb, vb)) t).h_flipped = hb := by
        rw [setRec_same]; exact hor1
      have f4 : (setRec rs t (markRec (rs t) (c % cols) (c / cols) (hb, vb)) t).v_flipped = vb := by
        rw [setRec_same]; exact hor2
      have f5 : TileRec.non_unique_tile_count
          (setRec rs t (markRec (rs t) (c % cols) (c / cols) (hb, vb)) t) = 0 := by
        rw [setRec_same]; exact hcnt0
      have hother : ∀ t', t' ≠ t →
          setRec rs t (markRec (rs t) (c % cols) (c / cols) (hb, vb)) t' = rs t' :=
        fun t' h' => setRec_other rs t _ h'
      refine ⟨⟨?_, ?_, ?_, ?_⟩, ?_, ?_, ?_⟩
      · rw [hother c hct]; exact hinv.cand_uniq
      · intro t' hut'
        by_cases het : t' = t
        · subst het; rw [f1] at hut'; exact Bool.noConfusion hut'
        · rw [hother t' het] at hut' ⊢; exact hinv.uniq_default t' hut'
      · intro t' hut'
        by_cases het : t' = t
        · subst het
          refine ⟨c, ht1, Nat.lt_succ_self c, ?_, ?_, ?_, f5⟩
          · rw [hother c hct]; exact hinv.cand_uniq
          · exact f2
          · rw [f3, f4]; exact hcl
        · rw [hother t' het] at hut'
          obtain ⟨p, hp1, hp2, hp3, hp4, hp5, hp6⟩ := hinv.canonical t' hut'
          have hpt : p ≠ t := by omega
          refine ⟨p, hp1, hp2, ?_, ?_, ?_, ?_⟩
          · rw [hother p hpt]; exact hp3
          · rw [hother t' het]; exact hp4
          · rw [hother t' het]; exact hp5
          · rw [hother t' het]; exact hp6
      · intro p hpc hpu t'' ht''1 ht''2 hcl''
        have hpt : p ≠ t := by omega
        rw [hother p hpt] at hpu
        have := hinv.complete p hpc hpu t'' ht''1 ht''2 hcl''
        by_cases het : t'' = t
        · subst het; exact f1
        · rw [hother t'' het]; exact this
      · intro _; exact f1
      · intro t' hut'
        by_cases het : t' = t
        · subst het; exact f1
        · rw [hother t' het]; exact hut'
      · exact hother

theorem scanFold_inv (img : Image) (cols rows c : Nat) (hcN : c < rows * cols) :
    ∀ (L : List Nat), (∀ t ∈ L, c < t ∧ t < rows * cols) →
      ∀ (rs : DedupMap), ScanInv img cols rows c rs →
      ScanInv img cols rows c (L.foldl (dedupTargetStep img cols c) rs) ∧
      (∀ t ∈ L, classify (tileAt img cols c) (tileAt img cols t) ≠ none →
        ((L.foldl (dedupTargetStep img cols c) rs) t).unique = false) ∧
      (∀ t', (rs t').unique = false →
        ((L.foldl (dedupTargetStep img cols c) rs) t').unique = false) := by
  intro L
  induction L with
  | nil =>
      intro _ rs h
      exact ⟨h, by simp, fun t' h' => h'⟩
  | cons hd tl ih =>
      intro hL rs hinv
      obtain ⟨hhd1, hhd2⟩ := hL hd (List.mem_cons_self hd tl)
      obtain ⟨sinv, smark, smono, _⟩ := scanStep_inv img cols rows c hcN rs hd hhd1 hhd2 hinv
      have hLtl : ∀ t ∈ tl, c < t ∧ t < rows * cols :=
        fun t ht => hL t (List.mem_cons_of_mem hd ht)
      obtain ⟨finv, fmark, fmono⟩ := ih hLtl _ sinv
      simp only [List.foldl_cons]
      refine ⟨finv, ?_, ?_⟩
      · intro t ht hcl
        rcases List.mem_cons.1 ht with rfl | htl
        · exact fmono _ (smark hcl)
        · exact fmark t htl hcl
      · intro t' h'
        exact fmono t' (smono t' h')

theorem dedupCandStep_inv (img : Image) (cols rows c : Nat) (hcN : c < rows * cols)
    (rs : DedupMap) (hinv : DedupInv img cols rows c rs) :
    DedupInv img cols rows (c + 1) (dedupCandStep img cols rows rs c) := by
  unfold dedupCandStep
  by_cases hu : (rs c).unique = false
  · rw [if_pos hu]
    refine ⟨hinv.uniq_default, ?_, ?_⟩
    · intro t ht
      obtain ⟨p, h1, h2, h3, h4, h5, h6⟩ := hinv.canonical t ht
      exact ⟨p, h1, Nat.lt_succ_of_lt h2, h3, h4, h5, h6⟩
    · intro p hp hpu t ht1 ht2 hcl
      have hpc : p < c ∨ p = c := by omega
      rcases hpc with hlt | rfl
      · exact hinv.complete p hlt hpu t ht1 ht2 hcl
      · rw [hu] at hpu; exact Bool.noConfusion hpu
  · rw [if_neg hu]
    have hcu : (rs c).unique = true := by
      cases h : (rs c).unique
      · exact absurd h hu
      · rfl
    have sinv : ScanInv img cols rows c rs := by
      refine ⟨hcu, hinv.uniq_default, ?_, hinv.complete⟩
      intro t ht
      obtain ⟨p, h1, h2, h3, h4, h5, h6⟩ := hinv.canonical t ht
      exact ⟨p, h1, Nat.lt_succ_of_lt h2, h3, h4, h5, h6⟩
    have hmem : ∀ t ∈ List.range' (c + 1) (rows * cols - (c + 1)), c < t ∧ t < rows * cols := by
      intro t ht
      rw [List.mem_range'_1] at ht
      omega
    obtain ⟨finv, fmark, fmono⟩ := scanFold_inv img cols rows c hcN _ hmem rs sinv
    unfold scanFlat
    refine ⟨finv.uniq_default, finv.canonical, ?_⟩
    intro p hp hpu t ht1 ht2 hcl
    have hpc : p < c ∨ p = c := by omega
    rcases hpc with hlt | rfl
    · exact finv.complete p hlt hpu t ht1 ht2 hcl
    · refine fmark t ?_ hcl
      rw [List.mem_range'_1]
      omega

theorem dedupPrefix_inv (img : Image) (cols rows : Nat) :
    ∀ n, n ≤ rows * cols →
      DedupInv img cols rows n ((List.range n).foldl (dedupCandStep img cols rows) initRecs) := by
  intro n
  induction n with
  | zero =>
      intro _
      refine ⟨fun t _ => rfl, ?_, ?_⟩
      · intro t ht
        exact Bool.noConfusion ht
      · intro p hp
        omega
  | succ m ih =>
      intro hle
      rw [List.range_succ, List.foldl_append]
      simp only [List.foldl_cons, List.foldl_nil]
      exact dedupCandStep_inv img cols rows m (by omega) _ (ih (by omega))

/-- Master invariant of the deduplication table produced by compare_tiles. -/
theorem compare_tiles_inv (img : Image) (cols rows : Nat) :
    DedupInv img cols rows (rows * cols) (compare_tiles img cols rows).1 := by
  rw [compare_tiles_fst_eq]
  exact dedupPrefix_inv img cols rows (rows * cols) (Nat.le_refl _)

end Butano

namespace Butano

/-- Source: PIL Image.paste of an 8x8 tile at pixel offset (x0, y0); PIL clips
the pasted region at the canvas border (width W, height H). -/
def pasteClip (canvas tile : Image) (x0 y0 W H : Nat) : Image :=
  fun x y => if x0 ≤ x ∧ x < x0 + 8 ∧ y0 ≤ y ∧ y < y0 + 8 ∧ x < W ∧ y < H
             then tile (x - x0) (y - y0) else canvas x y

/-- Mutable state of the packing loop of create_rgb_tilemap_image: the canvas
being filled, the pack cursor (i, j), the running duplicate counter and the
record table being annotated. -/
structure RgbState where
  canvas : Image
  i : Nat
  j : Nat
  non_unique_tiles : Nat
  recs : DedupMap

/-- Source: the loop body of create_rgb_tilemap_image of tilemap_compressor.py
(lines 177-190; the same loop appears in create_compressed_tileset of
tilemap_minimizer.py, lines 191-205) for the cell at tile position (x, y):
a unique tile is pasted at the pack cursor and the cursor advances with
wrap-around at min_width/8 columns; a non-unique tile bumps the running
counter; in both cases the cell's non_unique_tile_count field is set to the
current counter value. -/
def create_rgb_step (img : Image) (cols W H : Nat) (st : RgbState) (x y : Nat) : RgbState :=
  let t := y * cols + x
  if (st.recs t).unique then
    let canvas2 := pasteClip st.canvas (cropTile img x y) (st.j * 8) (st.i * 8) W H
    let recs2 := setRec st.recs t
      { st.recs t with non_unique_tile_count := st.non_unique_tiles }
    if st.j + 1 ≥ W / 8 then
      { canvas := canvas2, i := st.i + 1, j := 0,
        non_unique_tiles := st.non_unique_tiles, recs := recs2 }
    else
      { canvas := canvas2, i := st.i, j := st.j + 1,
        non_unique_tiles := st.non_unique_tiles, recs := recs2 }
  else
    { canvas := st.canvas, i := st.i, j := st.j,
      non_unique_tiles := st.non_unique_tiles + 1,
      recs := setRec st.recs t
        { st.recs t with non_unique_tile_count := st.non_unique_tiles + 1 } }

/-- Source: create_rgb_tilemap_image — the canvas is seeded with the color of
the original atlas's pixel (0,0) (Image.new fill argument), then the cells are
walked in raster order.  Returns the packed canvas and the annotated record
table. -/
def create_rgb_tilemap_image (img : Image) (cols rows W H : Nat) (recs : DedupMap) :
    Image × DedupMap :=
  let st := (List.range rows).foldl (fun s y =>
    (List.range cols).foldl (fun s' x => create_rgb_step img cols W H s' x y) s)
    ⟨fun _ _ => img 0 0, 0, 0, 0, recs⟩
  (st.canvas, st.recs)

/-- The raster positions of the unique cells among the first n cells. -/
def uniqList (recs0 : DedupMap) (n : Nat) : List Nat :=
  (List.range n).filter (fun t => (recs0 t).unique)

/-- Number of unique cells among the first n cells. -/
def countUniq (recs0 : DedupMap) (n : Nat) : Nat := (uniqList recs0 n).length

/-- Number of non-unique cells among the first n cells. -/
def countNonUniq (recs0 : DedupMap) (n : Nat) : Nat :=
  ((List.range n).filter (fun t => !(recs0 t).unique)).length

theorem uniqList_succ (recs0 : DedupMap) (n : Nat) :
    uniqList recs0 (n + 1) =
      if (recs0 n).unique then uniqList recs0 n ++ [n] else uniqList recs0 n := by
  unfold uniqList
  rw [List.range_succ, List.filter_append]
  cases h : (recs0 n).unique <;> simp [h]

theorem countUniq_succ (recs0 : DedupMap) (n : Nat) :
    countUniq recs0 (n + 1) =
      countUniq recs0 n + if (recs0 n).unique then 1 else 0 := by
  unfold countUniq
  rw [uniqList_succ]
  cases h : (recs0 n).unique <;> simp [h]

theorem countNonUniq_succ (recs0 : DedupMap) (n : Nat) :
    countNonUniq recs0 (n + 1) =
      countNonUniq recs0 n + if (recs0 n).unique then 0 else 1 := by
  unfold countNonUniq
  rw [List.range_succ, List.filter_append]
  cases h : (recs0 n).unique <;> simp [h]

theorem countUniq_add_countNonUniq (recs0 : DedupMap) :
    ∀ n, countUniq recs0 n + countNonUniq recs0 n = n := by
  intro n
  induction n with
  | zero => rfl
  | succ m ih =>
      rw [countUniq_succ, countNonUniq_succ]
      cases h : (recs0 m).unique <;> simp [h] <;> omega

theorem countUniq_mono (recs0 : DedupMap) (m : Nat) :
    ∀ n, m ≤ n → countUniq recs0 m ≤ countUniq recs0 n := by
  intro n
  induction n with
  | zero =>
      intro h
      have hm : m = 0 := by omega
      subst hm
      exact Nat.le_refl _
  | succ k ih =>
      intro h
      rcases Nat.lt_or_ge m (k + 1) with hlt | hge
      · have h2 := ih (by omega)
        rw [countUniq_succ]
        omega
      · have hm : m = k + 1 := by omega
        subst hm
        exact Nat.le_refl _

theorem countNonUniq_mono (recs0 : DedupMap) (m : Nat) :
    ∀ n, m ≤ n → countNonUniq recs0 m ≤ countNonUniq recs0 n := by
  intro n
  induction n with
  | zero =>
      intro h
      have hm : m = 0 := by omega
      subst hm
      exact Nat.le_refl _
  | succ k ih =>
      intro h
      rcases Nat.lt_or_ge m (k + 1) with hlt | hge
      · have h2 := ih (by omega)
        rw [countNonUniq_succ]
        cases hk : (recs0 k).unique <;> simp [hk] <;> omega
      · have hm : m = k + 1 := by omega
        subst hm
        exact Nat.le_refl _

theorem uniqList_getD_lt (recs0 : DedupMap) (m : Nat) :
    ∀ n, m ≤ n → ∀ s, s < countUniq recs0 m →
      (uniqList recs0 n).getD s 0 = (uniqList recs0 m).getD s 0 := by
  intro n
  induction n with
  | zero =>
      intro h s hs
      have hm : m = 0 := by omega
      subst hm
      rfl
  | succ k ih =>
      intro h s hs
      rcases Nat.lt_or_ge m (k + 1) with hlt | hge
      · have hmk : m ≤ k := by omega
        have hsk : s < countUniq recs0 k :=
          Nat.lt_of_lt_of_le hs (countUniq_mono recs0 m k hmk)
        rw [uniqList_succ]
        cases hu : (recs0 k).unique
        · rw [if_neg (by simp)]
          exact ih hmk s hs
        · rw [if_pos rfl, List.getD_append _ _ _ _ hsk]
          exact ih hmk s hs
      · have hm : m = k + 1 := by omega
        subst hm
        rfl

/-- The position of a unique cell in the packed order is the number of unique
cells strictly before it. -/
theorem uniqList_getD_self (recs0 : DedupMap) {p : Nat} (hu : (recs0 p).unique = true) :
    ∀ n, p < n → (uniqList recs0 n).getD (countUniq recs0 p) 0 = p := by
  intro n hn
  have h1 : (uniqList recs0 (p + 1)).getD (countUniq recs0 p) 0 = p := by
    rw [uniqList_succ, if_pos hu]
    have hlen : countUniq recs0 p = (uniqList recs0 p).length := rfl
    rw [hlen, List.getD_append_right _ _ _ _ (Nat.le_refl _)]
    simp
  calc (uniqList recs0 n).getD (countUniq recs0 p) 0
      = (uniqList recs0 (p + 1)).getD (countUniq recs0 p) 0 := by
        refine uniqList_getD_lt recs0 (p + 1) n (by omega) _ ?_
        rw [countUniq_succ, if_pos hu]
        omega
    _ = p := h1

end Butano

namespace Butano

theorem grid_decomp_unique {Wt a b c d : Nat} (hb : b < Wt) (hd : d < Wt)
    (h : a * Wt + b = c * Wt + d) : a = c ∧ b = d := by
  have h3 : (a * Wt + b) / Wt = a := raster_div_of_row hb
  have h4 : (c * Wt + d) / Wt = c := raster_div_of_row hd
  have h1 : (a * Wt + b) % Wt = b := raster_mod_of_row hb
  have h2 : (c * Wt + d) % Wt = d := raster_mod_of_row hd
  constructor
  · rw [← h3, ← h4, h]
  · rw [← h1, ← h2, h]

theorem succ_div_mod_of_wrap {cU Wt : Nat} (hWt : 0 < Wt) (h : Wt ≤ cU % Wt + 1) :
    (cU + 1) % Wt = 0 ∧ (cU + 1) / Wt = cU / Wt + 1 := by
  have hdm := div_mul_add_mod cU Wt
  have hm := Nat.mod_lt cU hWt
  have he : cU + 1 = (cU / Wt + 1) * Wt := by
    rw [Nat.succ_mul]
    omega
  rw [he]
  exact ⟨Nat.mul_mod_left _ _, Nat.mul_div_cancel _ hWt⟩

theorem succ_div_mod_of_nowrap {cU Wt : Nat} (hWt : 0 < Wt) (h : cU % Wt + 1 < Wt) :
    (cU + 1) % Wt = cU % Wt + 1 ∧ (cU + 1) / Wt = cU / Wt := by
  have hdm := div_mul_add_mod cU Wt
  have he : cU + 1 = cU / Wt * Wt + (cU % Wt + 1) := by omega
  rw [he]
  exact ⟨raster_mod_of_row h, raster_div_of_row h⟩

/-- The packing loop in flat raster-index form. -/
def rgbFlatStep (img : Image) (cols W H : Nat) (st : RgbState) (t : Nat) : RgbState :=
  create_rgb_step img cols W H st (t % cols) (t / cols)

/-- Starting state of the packing loop: blank canvas filled with the color of
the original atlas's pixel (0,0). -/
def rgbInit (img : Image) (recs : DedupMap) : RgbState :=
  ⟨fun _ _ => img 0 0, 0, 0, 0, recs⟩

theorem create_rgb_eq_flat (img : Image) (cols rows W H : Nat) (recs : DedupMap) :
    create_rgb_tilemap_image img cols rows W H recs =
      (((List.range (rows * cols)).foldl (rgbFlatStep img cols W H)
          (rgbInit img recs)).canvas,
       ((List.range (rows * cols)).foldl (rgbFlatStep img cols W H)
          (rgbInit img recs)).recs) := by
  unfold create_rgb_tilemap_image
  rw [foldl_nested_eq (fun s x y => create_rgb_step img cols W H s x y) rows cols]
  rfl

theorem rgbFlatStep_eq (img : Image) (cols W H : Nat) (st : RgbState) (t : Nat) :
    rgbFlatStep img cols W H st t =
      if (st.recs t).unique then
        { canvas := pasteClip st.canvas (tileAt img cols t) (st.j * 8) (st.i * 8) W H,
          i := if st.j + 1 ≥ W / 8 then st.i + 1 else st.i,
          j := if st.j + 1 ≥ W / 8 then 0 else st.j + 1,
          non_unique_tiles := st.non_unique_tiles,
          recs := setRec st.recs t
            { st.recs t with non_unique_tile_count := st.non_unique_tiles } }
      else
        { canvas := st.canvas, i := st.i, j := st.j,
          non_unique_tiles := st.non_unique_tiles + 1,
          recs := setRec st.recs t
            { st.recs t with non_unique_tile_count := st.non_unique_tiles + 1 } } := by
  simp only [rgbFlatStep, create_rgb_step]
  rw [div_mul_add_mod]
  split_ifs <;> rfl

/-- Invariant of the packing loop after the first n cells: the cursor is the
div/mod decomposition of the number of packed unique tiles, the running
counter counts the non-unique cells seen, each processed record carries the
inclusive running duplicate count, and the canvas holds the packed unique
tiles in order with the original pixel (0,0) color everywhere else. -/
structure RgbInv (img : Image) (cols W H : Nat) (recs0 : DedupMap) (n : Nat)
    (st : RgbState) : Prop where
  hi : st.i = countUniq recs0 n / (W / 8)
  hj : st.j = countUniq recs0 n % (W / 8)
  hcnt : st.non_unique_tiles = countNonUniq recs0 n
  hrecs : ∀ t, st.recs t = if t < n then
      { recs0 t with non_unique_tile_count := countNonUniq recs0 (t + 1) } else recs0 t
  hcanvas : ∀ x y, st.canvas x y =
      if x < W ∧ y < H ∧ (y / 8) * (W / 8) + x / 8 < countUniq recs0 n then
        tileAt img cols ((uniqList recs0 n).getD ((y / 8) * (W / 8) + x / 8) 0)
          (x % 8) (y % 8)
      else img 0 0

theorem rgbStep_inv (img : Image) (cols W H : Nat) (recs0 : DedupMap) (n : Nat)
    (st : RgbState) (hW8 : W % 8 = 0) (hWt : 0 < W / 8)
    (hinv : RgbInv img cols W H recs0 n st) :
    RgbInv img cols W H recs0 (n + 1) (rgbFlatStep img cols W H st n) := by
  rw [rgbFlatStep_eq]
  have hrn : st.recs n = recs0 n := by
    rw [hinv.hrecs n]
    simp
  rw [hrn]
  cases hu : (recs0 n).unique
  · rw [if_neg (by simp)]
    refine ⟨?_, ?_, ?_, ?_, ?_⟩
    · show st.i = _
      rw [hinv.hi, countUniq_succ, hu]
      simp
    · show st.j = _
      rw [hinv.hj, countUniq_succ, hu]
      simp
    · show st.non_unique_tiles + 1 = _
      rw [hinv.hcnt, countNonUniq_succ, hu]
      simp
    · intro t
      show setRec st.recs n { recs0 n with
          non_unique_tile_count := st.non_unique_tiles + 1 } t = _
      by_cases het : t = n
      · subst het
        rw [setRec_same, if_pos (Nat.lt_succ_self t)]
        rw [hinv.hcnt, countNonUniq_succ, hu]
        simp
      · rw [setRec_other _ _ _ het, hinv.hrecs t]
        by_cases hlt : t < n
        · rw [if_pos hlt, if_pos (by omega)]
        · rw [if_neg hlt, if_neg (by omega)]
    · intro x y
      show st.canvas x y = _
      rw [hinv.hcanvas x y, countUniq_succ, uniqList_succ, hu]
      simp
  · rw [if_pos rfl]
    have hcU := div_mul_add_mod (countUniq recs0 n) (W / 8)
    have hsucc : countUniq recs0 (n + 1) = countUniq recs0 n + 1 := by
      rw [countUniq_succ, hu]
      simp
    have hul : uniqList recs0 (n + 1) = uniqList recs0 n ++ [n] := by
      rw [uniqList_succ, if_pos hu]
    have hgetn : (uniqList recs0 (n + 1)).getD (countUniq recs0 n) 0 = n := by
      rw [hul]
      have hlen : countUniq recs0 n = (uniqList recs0 n).length := rfl
      rw [hlen, List.getD_append_right _ _ _ _ (Nat.le_refl _)]
      simp
    refine ⟨?_, ?_, ?_, ?_, ?_⟩
    · show (if st.j + 1 ≥ W / 8 then st.i + 1 else st.i) = _
      rw [hinv.hi, hinv.hj, hsucc]
      by_cases hw : countUniq recs0 n % (W / 8) + 1 ≥ W / 8
      · rw [if_pos hw, (succ_div_mod_of_wrap hWt hw).2]
      · rw [if_neg hw, (succ_div_mod_of_nowrap hWt (by omega)).2]
    · show (if st.j + 1 ≥ W / 8 then 0 else st.j + 1) = _
      rw [hinv.hj, hsucc]
      by_cases hw : countUniq recs0 n % (W / 8) + 1 ≥ W / 8
      · rw [if_pos hw, (succ_div_mod_of_wrap hWt hw).1]
      · rw [if_neg hw, (succ_div_mod_of_nowrap hWt (by omega)).1]
    · show st.non_unique_tiles = _
      rw [hinv.hcnt, countNonUniq_succ, hu]
      simp
    · intro t
      show setRec st.recs n { recs0 n with
          non_unique_tile_count := st.non_unique_tiles } t = _
      by_cases het : t = n
      · subst het
        rw [setRec_same, if_pos (Nat.lt_succ_self t)]
        rw [hinv.hcnt]
        have : countNonUniq recs0 (t + 1) = countNonUniq recs0 t := by
          rw [countNonUniq_succ, hu]
          simp
        rw [this]
      · rw [setRec_other _ _ _ het, hinv.hrecs t]
        by_cases hlt : t < n
        · rw [if_pos hlt, if_pos (by omega)]
        · rw [if_neg hlt, if_neg (by omega)]
    · intro x y
      show pasteClip st.canvas (tileAt img cols n) (st.j * 8) (st.i * 8) W H x y = _
      unfold pasteClip
      rw [hinv.hj, hinv.hi]
      by_cases hC : countUniq recs0 n % (W / 8) * 8 ≤ x ∧
          x < countUniq recs0 n % (W / 8) * 8 + 8 ∧
          countUniq recs0 n / (W / 8) * 8 ≤ y ∧
          y < countUniq recs0 n / (W / 8) * 8 + 8 ∧ x < W ∧ y < H
      · rw [if_pos hC]
        obtain ⟨c1, c2, c3, c4, c5, c6⟩ := hC
        have hx8 : x / 8 = countUniq recs0 n % (W / 8) := by omega
        have hy8 : y / 8 = countUniq recs0 n / (W / 8) := by omega
        have hslot : (y / 8) * (W / 8) + x / 8 = countUniq recs0 n := by
          rw [hx8, hy8]
          exact hcU
        rw [if_pos (by rw [hslot, hsucc]; exact ⟨c5, c6, Nat.lt_succ_self _⟩)]
        rw [hslot, hgetn]
        have hxm : x - countUniq recs0 n % (W / 8) * 8 = x % 8 := by omega
        have hym : y - countUniq recs0 n / (W / 8) * 8 = y % 8 := by omega
        rw [hxm, hym]
      · rw [if_neg hC, hinv.hcanvas x y]
        by_cases hin : x < W ∧ y < H
        · obtain ⟨hxW, hyH⟩ := hin
          have hxlt : x / 8 < W / 8 := by omega
          by_cases hlt : (y / 8) * (W / 8) + x / 8 < countUniq recs0 n
          · rw [if_pos ⟨hxW, hyH, hlt⟩,
                if_pos ⟨hxW, hyH, by omega⟩]
            rw [uniqList_getD_lt recs0 n (n + 1) (by omega) _ hlt]
          · have hne : (y / 8) * (W / 8) + x / 8 ≠ countUniq recs0 n := by
              intro heq
              have hdec := grid_decomp_unique hxlt
                (Nat.mod_lt _ hWt) (heq.trans hcU.symm)
              obtain ⟨hy8, hx8⟩ := hdec
              apply hC
              refine ⟨by omega, by omega, by omega, by omega, hxW, hyH⟩
            rw [if_neg (by rintro ⟨_, _, hc⟩; omega),
                if_neg (by rw [hsucc]; rintro ⟨_, _, hc⟩; omega)]
        · rw [if_neg (by rintro ⟨h1, h2, _⟩; exact hin ⟨h1, h2⟩),
              if_neg (by rintro ⟨h1, h2, _⟩; exact hin ⟨h1, h2⟩)]

theorem rgbFold_inv (img : Image) (cols W H : Nat) (recs0 : DedupMap)
    (hW8 : W % 8 = 0) (hWt : 0 < W / 8) :
    ∀ n, RgbInv img cols W H recs0 n
      ((List.range n).foldl (rgbFlatStep img cols W H) (rgbInit img recs0)) := by
  intro n
  induction n with
  | zero =>
      have h0 : countUniq recs0 0 = 0 := rfl
      refine ⟨?_, ?_, ?_, fun t => by simp [rgbInit], ?_⟩
      · show (0 : Nat) = countUniq recs0 0 / (W / 8)
        rw [h0, Nat.zero_div]
      · show (0 : Nat) = countUniq recs0 0 % (W / 8)
        rw [h0, Nat.zero_mod]
      · show (0 : Nat) = countNonUniq recs0 0
        rfl
      · intro x y
        show img 0 0 = _
        rw [if_neg]
        rintro ⟨_, _, hc⟩
        rw [h0] at hc
        omega
  | succ m ih =>
      rw [List.range_succ, List.foldl_append]
      simp only [List.foldl_cons, List.foldl_nil]
      exact rgbStep_inv img cols W H recs0 m _ hW8 hWt ih

end Butano

namespace Butano

theorem create_rgb_recs_spec (img : Image) (cols rows W H : Nat) (recs0 : DedupMap)
    (hW8 : W % 8 = 0) (hWt : 0 < W / 8) (t : Nat) :
    (create_rgb_tilemap_image img cols rows W H recs0).2 t =
      if t < rows * cols then
        { recs0 t with non_unique_tile_count := countNonUniq recs0 (t + 1) }
      else recs0 t := by
  rw [create_rgb_eq_flat]
  exact (rgbFold_inv img cols W H recs0 hW8 hWt (rows * cols)).hrecs t

theorem create_rgb_canvas_spec (img : Image) (cols rows W H : Nat) (recs0 : DedupMap)
    (hW8 : W % 8 = 0) (hWt : 0 < W / 8) (x y : Nat) :
    (create_rgb_tilemap_image img cols rows W H recs0).1 x y =
      if x < W ∧ y < H ∧ (y / 8) * (W / 8) + x / 8 < countUniq recs0 (rows * cols) then
        tileAt img cols
          ((uniqList recs0 (rows * cols)).getD ((y / 8) * (W / 8) + x / 8) 0)
          (x % 8) (y % 8)
      else img 0 0 := by
  rw [create_rgb_eq_flat]
  exact (rgbFold_inv img cols W H recs0 hW8 hWt (rows * cols)).hcanvas x y

theorem compare_tiles_snd_eq (img : Image) (cols rows : Nat) :
    (compare_tiles img cols rows).2 =
      countUniq (compare_tiles img cols rows).1 (rows * cols) := by
  show countUniqueRecs (compare_tiles img cols rows).1 cols rows = _
  rw [countUniqueRecs_eq]
  rfl

/-- Source: get_tilemap_size of tilemap_compressor.py (the same tier choice is
inlined in create_compressed_tileset of tilemap_minimizer.py).  The Python
float arithmetic int((tile_count-256)/16+1) is exact here, equal to the floor
division plus one.  For a count above 960 the Python function falls off the
end and the caller would hit an UnboundLocalError; that is modelled as none. -/
def get_tilemap_size (tile_count : Nat) : Option (Nat × Nat) :=
  if tile_count ≤ 256 then some (128, 128)
  else if tile_count ≤ 512 then some (128 + ((tile_count - 256) / 16 + 1) * 8, 128)
  else if tile_count ≤ 960 then some (256, 128 + ((tile_count - 512) / 32 + 1) * 8)
  else none

theorem get_tilemap_size_le960 {U W H : Nat} (hs : get_tilemap_size U = some (W, H)) :
    U ≤ 960 := by
  unfold get_tilemap_size at hs
  split_ifs at hs with h1 h2 h3
  · omega
  · omega
  · omega

theorem get_tilemap_size_spec {U : Nat} {W H : Nat}
    (hs : get_tilemap_size U = some (W, H)) :
    W % 8 = 0 ∧ 0 < W / 8 ∧ H % 8 = 0 ∧ U ≤ W / 8 * (H / 8) := by
  unfold get_tilemap_size at hs
  split_ifs at hs with h1 h2 h3
  · simp only [Option.some.injEq, Prod.mk.injEq] at hs
    obtain ⟨rfl, rfl⟩ := hs
    refine ⟨by decide, by decide, by decide, by omega⟩
  · simp only [Option.some.injEq, Prod.mk.injEq] at hs
    obtain ⟨rfl, rfl⟩ := hs
    refine ⟨by omega, by omega, by decide, by omega⟩
  · simp only [Option.some.injEq, Prod.mk.injEq] at hs
    obtain ⟨rfl, rfl⟩ := hs
    refine ⟨by decide, by decide, by omega, by omega⟩

theorem get_tilemap_size_isSome {U : Nat} (h : U ≤ 960) :
    ∃ W H, get_tilemap_size U = some (W, H) := by
  unfold get_tilemap_size
  split_ifs with h1 h2 h3
  · exact ⟨_, _, rfl⟩
  · exact ⟨_, _, rfl⟩
  · exact ⟨_, _, rfl⟩

/-- Source: config.py, H_FLIP constant. -/
def H_FLIP : Nat := 1024

/-- Source: config.py, V_FLIP constant. -/
def V_FLIP : Nat := 2048

/-- Source: mapdata_generator.py, calculate_tilemap_data lines 117-126 (also
mapdata_models.MapObject.calculate_tilemap_data lines 173-182, and with the
tile factor fixed to 2, tilemap_minimizer.create_tilemap_data lines 304-313):
resolution of an atlas raster index real_id into the final hardware code.
The flip offsets are read at real_id, a non-unique cell is redirected to its
canonical cell (atlasCols stands for bitmap_width * tilesize_factor, the
atlas width in 8-pixel tiles), the running duplicate count at the resulting
cell is subtracted, and the flip offsets are added. -/
def resolveCode (bitmap : DedupMap) (atlasCols real_id : Nat) : Nat :=
  let flip_offset :=
    (if (bitmap real_id).h_flipped then H_FLIP else 0) +
    (if (bitmap real_id).v_flipped then V_FLIP else 0)
  let rid := if (bitmap real_id).unique = false then
      (bitmap real_id).relative.2 * atlasCols + (bitmap real_id).relative.1
    else real_id
  let rid2 := rid - (bitmap rid).non_unique_tile_count
  rid2 + flip_offset

theorem countUniq_lt_of_uniq (recs0 : DedupMap) {p n : Nat} (hp : p < n)
    (hu : (recs0 p).unique = true) : countUniq recs0 p < countUniq recs0 n := by
  have h1 : countUniq recs0 (p + 1) = countUniq recs0 p + 1 := by
    rw [countUniq_succ, hu]
    simp
  have h2 := countUniq_mono recs0 (p + 1) n (by omega)
  omega

/-- The compacted index of a unique cell: subtracting the inclusive running
duplicate count recovers the number of unique cells strictly before it. -/
theorem compacted_index_eq (recs0 : DedupMap) {p : Nat}
    (hu : (recs0 p).unique = true) :
    p - countNonUniq recs0 (p + 1) = countUniq recs0 p := by
  have h1 : countNonUniq recs0 (p + 1) = countNonUniq recs0 p := by
    rw [countNonUniq_succ, hu]
    simp
  have h2 := countUniq_add_countNonUniq recs0 p
  omega

end Butano

namespace Butano

/-- CLAIM C1 (confirmed): round-trip losslessness.  For an atlas of cols by
rows 8x8 tiles whose unique-tile count admits a compacted canvas (that is,
get_tilemap_size succeeds, which bounds the count by 960), and any atlas grid
cell t: take the cell's final hardware code as computed by resolveCode over
the records annotated by create_rgb_tilemap_image, strip the H_FLIP (1024)
and V_FLIP (2048) bits, read the 8x8 pixel block at the remaining compacted
index of the packed canvas, and apply the recorded horizontal/vertical flips;
the result is pixel-identical to the original atlas cell. -/
theorem claim_C1_roundtrip (img : Image) (cols rows : Nat) (hcols : 0 < cols)
    (W H : Nat)
    (hsize : get_tilemap_size (compare_tiles img cols rows).2 = some (W, H))
    (t px py : Nat) (ht : t < rows * cols) (hpx : px < 8) (hpy : py < 8) :
    ∀ canvas recs' code,
      canvas = (create_rgb_tilemap_image img cols rows W H
                  (compare_tiles img cols rows).1).1 →
      recs' = (create_rgb_tilemap_image img cols rows W H
                  (compare_tiles img cols rows).1).2 →
      code = resolveCode recs' cols t →
      canvas ((code % 1024 % (W / 8)) * 8 + (if (code / 1024) % 2 = 1 then 7 - px else px))
             ((code % 1024 / (W / 8)) * 8 + (if code / 2048 = 1 then 7 - py else py))
        = tileAt img cols t px py := by
  intro canvas recs' code hcv hrc hcode
  obtain ⟨hW8, hWt, hH8, hcap⟩ := get_tilemap_size_spec hsize
  have hU960 : (compare_tiles img cols rows).2 ≤ 960 := get_tilemap_size_le960 hsize
  have hUeq := compare_tiles_snd_eq img cols rows
  have hinv := compare_tiles_inv img cols rows
  have hrecfun : ∀ q, recs' q = if q < rows * cols then
      { (compare_tiles img cols rows).1 q with
        non_unique_tile_count := countNonUniq (compare_tiles img cols rows).1 (q + 1) }
      else (compare_tiles img cols rows).1 q := by
    intro q
    rw [hrc]
    exact create_rgb_recs_spec img cols rows W H _ hW8 hWt q
  have hcf : ∀ x y, canvas x y =
      if x < W ∧ y < H ∧ (y / 8) * (W / 8) + x / 8 <
          countUniq (compare_tiles img cols rows).1 (rows * cols) then
        tileAt img cols ((uniqList (compare_tiles img cols rows).1 (rows * cols)).getD
          ((y / 8) * (W / 8) + x / 8) 0) (x % 8) (y % 8)
      else img 0 0 := by
    intro x y
    rw [hcv]
    exact create_rgb_canvas_spec img cols rows W H _ hW8 hWt x y
  set recs0 := (compare_tiles img cols rows).1 with hrecs0
  have hrt : recs' t =
      { recs0 t with non_unique_tile_count := countNonUniq recs0 (t + 1) } := by
    rw [hrecfun t, if_pos ht]
  -- canonical cell p, packed slot s and flag pair (hb, vb) of the cell
  have key : ∃ p hb vb, (recs0 p).unique = true ∧ p < rows * cols ∧
      code = countUniq recs0 p +
        ((if hb then 1024 else 0) + (if vb then 2048 else 0)) ∧
      EqOn8 (tileAt img cols p)
        (applyT hb vb (tileAt img cols t)) := by
    by_cases hu : (recs0 t).unique = true
    · refine ⟨t, false, false, hu, ht, ?_, ?_⟩
      · have hdef : recs0 t = {} := hinv.uniq_default t hu
        rw [hcode]
        show (if (recs' t).unique = false then
                (recs' t).relative.2 * cols + (recs' t).relative.1 else t) -
             TileRec.non_unique_tile_count (recs' (if (recs' t).unique = false then
                (recs' t).relative.2 * cols + (recs' t).relative.1 else t)) +
             ((if (recs' t).h_flipped then H_FLIP else 0) +
              (if (recs' t).v_flipped then V_FLIP else 0)) = _
        have f_u : (recs' t).unique = true := by rw [hrt]; exact hu
        have f_h : (recs' t).h_flipped = false := by rw [hrt, hdef]
        have f_v : (recs' t).v_flipped = false := by rw [hrt, hdef]
        have f_cnt : (recs' t).non_unique_tile_count = countNonUniq recs0 (t + 1) := by
          rw [hrt]
        have hne_u : ¬((recs' t).unique = false) := by rw [f_u]; simp
        have hne_h : ¬((recs' t).h_flipped = true) := by simp [f_h]
        have hne_v : ¬((recs' t).v_flipped = true) := by simp [f_v]
        rw [if_neg hne_u, if_neg hne_h, if_neg hne_v]
        rw [f_cnt, compacted_index_eq recs0 hu]
        simp
      · intro x hx y hy
        rfl
    · have hu' : (recs0 t).unique = false := by
        cases h : (recs0 t).unique
        · rfl
        · exact absurd h hu
      obtain ⟨p, hp1, hp2, hp3, hp4, hp5, hp6⟩ := hinv.canonical t hu'
      refine ⟨p, (recs0 t).h_flipped, (recs0 t).v_flipped, hp3, by omega, ?_, ?_⟩
      · rw [hcode]
        show (if (recs' t).unique = false then
                (recs' t).relative.2 * cols + (recs' t).relative.1 else t) -
             TileRec.non_unique_tile_count (recs' (if (recs' t).unique = false then
                (recs' t).relative.2 * cols + (recs' t).relative.1 else t)) +
             ((if (recs' t).h_flipped then H_FLIP else 0) +
              (if (recs' t).v_flipped then V_FLIP else 0)) = _
        have f_u : (recs' t).unique = false := by rw [hrt]; exact hu'
        have f_rel : (recs' t).relative = (p % cols, p / cols) := by rw [hrt]; exact hp4
        have f_h : (recs' t).h_flipped = (recs0 t).h_flipped := by rw [hrt]
        have f_v : (recs' t).v_flipped = (recs0 t).v_flipped := by rw [hrt]
        rw [if_pos f_u]
        rw [f_rel, f_h, f_v]
        show p / cols * cols + p % cols -
            TileRec.non_unique_tile_count (recs' (p / cols * cols + p % cols)) + _ = _
        rw [div_mul_add_mod p cols]
        have hrp : recs' p =
            { recs0 p with non_unique_tile_count := countNonUniq recs0 (p + 1) } := by
          rw [hrecfun p, if_pos (by omega)]
        have f_pcnt : (recs' p).non_unique_tile_count = countNonUniq recs0 (p + 1) := by
          rw [hrp]
        rw [f_pcnt, compacted_index_eq recs0 hp3]
        rfl
      · exact classify_some_eqOn hp5
  obtain ⟨p, hb, vb, hpu, hpN, hcode2, he⟩ := key
  have hslt : countUniq recs0 p < countUniq recs0 (rows * cols) :=
    countUniq_lt_of_uniq recs0 hpN hpu
  have hs1024 : countUniq recs0 p < 1024 := by
    rw [hUeq] at hU960
    omega
  have hmod : code % 1024 = countUniq recs0 p := by
    rw [hcode2]
    cases hb <;> cases vb <;> simp <;> omega
  have hxterm : (if (code / 1024) % 2 = 1 then 7 - px else px) = flipc hb px := by
    rw [hcode2]
    cases hb <;> cases vb <;> simp [flipc] <;> omega
  have hyterm : (if code / 2048 = 1 then 7 - py else py) = flipc vb py := by
    rw [hcode2]
    cases hb <;> cases vb <;> simp [flipc] <;> omega
  rw [hmod, hxterm, hyterm]
  have hfx : flipc hb px < 8 := flipc_lt hb hpx
  have hfy : flipc vb py < 8 := flipc_lt vb hpy
  have hmlt : countUniq recs0 p % (W / 8) < W / 8 := Nat.mod_lt _ hWt
  have hxW : countUniq recs0 p % (W / 8) * 8 + flipc hb px < W := by omega
  have hdlt : countUniq recs0 p / (W / 8) < H / 8 := by
    refine (Nat.div_lt_iff_lt_mul hWt).2 ?_
    have hcm : H / 8 * (W / 8) = W / 8 * (H / 8) := Nat.mul_comm _ _
    rw [hUeq] at hcap
    omega
  have hyH : countUniq recs0 p / (W / 8) * 8 + flipc vb py < H := by omega
  rw [hcf]
  have hx8d : (countUniq recs0 p % (W / 8) * 8 + flipc hb px) / 8 =
      countUniq recs0 p % (W / 8) := raster_div_of_row hfx
  have hx8m : (countUniq recs0 p % (W / 8) * 8 + flipc hb px) % 8 =
      flipc hb px := raster_mod_of_row hfx
  have hy8d : (countUniq recs0 p / (W / 8) * 8 + flipc vb py) / 8 =
      countUniq recs0 p / (W / 8) := raster_div_of_row hfy
  have hy8m : (countUniq recs0 p / (W / 8) * 8 + flipc vb py) % 8 =
      flipc vb py := raster_mod_of_row hfy
  have hslot : (countUniq recs0 p / (W / 8) * 8 + flipc vb py) / 8 * (W / 8) +
      (countUniq recs0 p % (W / 8) * 8 + flipc hb px) / 8 = countUniq recs0 p := by
    rw [hx8d, hy8d]
    exact div_mul_add_mod _ _
  rw [if_pos ⟨hxW, hyH, by rw [hslot]; exact hslt⟩]
  rw [hslot, hx8m, hy8m]
  rw [uniqList_getD_self recs0 hpu (rows * cols) hpN]
  have h1 := he (flipc hb px) hfx (flipc vb py) hfy
  rw [h1]
  show tileAt img cols t (flipc hb (flipc hb px)) (flipc vb (flipc vb py)) = _
  rw [flipc_flipc hb hpx, flipc_flipc vb hpy]

end Butano

namespace Butano

/-- Error kinds of the compression pipeline: OverflowError raised by
create_compressed_tileset when more than 960 unique tiles are found (the
message carries the count), SystemExit from sys.exit in the palette extractor
when more than 256 distinct colors are found, and the ValueError or
UnboundLocalError reachable in create_paletted_tilemap_image when a canvas
color is missing from the palette. -/
inductive PyError where
  | overflowError (uniqueCount : Nat)
  | systemExit (colorCount : Nat)
  | valueError
  | unboundLocal
deriving Repr, DecidableEq

/-- Source: the color collection loops shared by both create_tilemap_palette
variants — scan the compacted image pixels in raster order (y outer, x inner)
and append each color not seen before. -/
def build_palette_list (imgf : Image) (W H : Nat) : List Color :=
  (List.range H).foldl (fun acc y =>
    (List.range W).foldl (fun acc2 x =>
      if imgf x y ∈ acc2 then acc2 else acc2 ++ [imgf x y]) acc) []

/-- Source: create_tilemap_palette of tilemap_compressor.py.  The palette
bitmap dimensions (8x8, 16x8 or 16x16) only shape an emitted image; the
function exits via sys.exit when more than 256 distinct colors are found.
Otherwise slot 0 is unconditionally overwritten with (255,0,255) — the guard
on black is commented out in this variant — and the bpp mode written to the
JSON sidecar is 4 when the palette holds at most 16 colors, else 8.  The
flat zero-padded triple list and the file writes are I/O artifacts no claim
depends on and are not modelled. -/
def create_tilemap_palette_c (imgf : Image) (W H : Nat) :
    Except PyError (List Color × Nat) :=
  let palette_list := build_palette_list imgf W H
  if palette_list.length ≤ 256 then
    let palette_list2 := palette_list.set 0 (255, 0, 255)
    .ok (palette_list2, if palette_list2.length ≤ 16 then 4 else 8)
  else .error (.systemExit palette_list.length)

/-- Source: create_tilemap_palette of tilemap_minimizer.py: same scan and
capacity check, but slot 0 is replaced with (255,0,255) only when the first
collected color is black (all three components equal 0); this variant emits
no bpp mode (it only rewrites colors_count in an existing JSON file).
On an empty image Python would raise an IndexError on palette_list[0]; that
path is never exercised, the default of getD stands in for it. -/
def create_tilemap_palette_m (imgf : Image) (W H : Nat) :
    Except PyError (List Color) :=
  let palette_list := build_palette_list imgf W H
  if palette_list.length ≤ 256 then
    if (palette_list.getD 0 (255, 0, 255)).1 = 0 ∧
       (palette_list.getD 0 (255, 0, 255)).2.1 = 0 ∧
       (palette_list.getD 0 (255, 0, 255)).2.2 = 0 then
      .ok (palette_list.set 0 (255, 0, 255))
    else .ok palette_list
  else .error (.systemExit palette_list.length)

/-- Source: the per-pixel index lookup of create_paletted_tilemap_image:
list.index raises ValueError when the color is absent; the handler retries
with (255,0,255) only for black pixels (ValueError again if pink is absent),
and any other absent color leaves pindex unbound, an UnboundLocalError on
the following putpixel. -/
def paletted_lookup (palette_list : List Color) (rgb : Color) : Except PyError Unit :=
  if rgb ∈ palette_list then .ok ()
  else if rgb = (0, 0, 0) then
    (if (255, 0, 255) ∈ palette_list then .ok () else .error .valueError)
  else .error .unboundLocal

/-- Source: create_paletted_tilemap_image of tilemap_compressor.py, reduced
to its failure behavior over the pixel scan; the produced paletted bitmap is
an I/O artifact no claim depends on. -/
def create_paletted_tilemap_image (canvas : Image) (W H : Nat)
    (palette_list : List Color) : Except PyError Unit :=
  (List.range H).foldl (fun st y =>
    (List.range W).foldl (fun st2 x =>
      match st2 with
      | .error e => .error e
      | .ok _ => paletted_lookup palette_list (canvas x y)) st) (.ok ())

theorem paletted_lookup_error (palette_list : List Color) (rgb : Color) (e : PyError)
    (h : paletted_lookup palette_list rgb = .error e) :
    e = .valueError ∨ e = .unboundLocal := by
  unfold paletted_lookup at h
  split_ifs at h
  · simp only [Except.error.injEq] at h
    exact Or.inl h.symm
  · simp only [Except.error.injEq] at h
    exact Or.inr h.symm

theorem create_paletted_error (canvas : Image) (W H : Nat) (palette_list : List Color)
    (e : PyError) (h : create_paletted_tilemap_image canvas W H palette_list = .error e) :
    e = .valueError ∨ e = .unboundLocal := by
  unfold create_paletted_tilemap_image at h
  have key : ∀ (st : Except PyError Unit),
      (st = .ok () ∨ ∃ e', st = .error e' ∧ (e' = .valueError ∨ e' = .unboundLocal)) →
      ∀ (l : List Nat) (y : Nat),
        ((l.foldl (fun st2 x => match st2 with
            | .error e2 => .error e2
            | .ok _ => paletted_lookup palette_list (canvas x y)) st) = .ok () ∨
         ∃ e', (l.foldl (fun st2 x => match st2 with
            | .error e2 => .error e2
            | .ok _ => paletted_lookup palette_list (canvas x y)) st) = .error e' ∧
            (e' = .valueError ∨ e' = .unboundLocal)) := by
    intro st hst l
    induction l generalizing st with
    | nil => intro y; exact hst
    | cons hd tl ih =>
        intro y
        simp only [List.foldl_cons]
        refine ih _ ?_ y
        rcases hst with hok | ⟨e', he', hcls⟩
        · rw [hok]
          cases hlk : paletted_lookup palette_list (canvas hd y) with
          | ok u =>
              cases u
              exact Or.inl rfl
          | error e2 =>
              exact Or.inr ⟨e2, rfl, paletted_lookup_error _ _ _ hlk⟩
        · rw [he']
          exact Or.inr ⟨e', rfl, hcls⟩
  have outer : ∀ (st : Except PyError Unit),
      (st = .ok () ∨ ∃ e', st = .error e' ∧ (e' = .valueError ∨ e' = .unboundLocal)) →
      ∀ (l : List Nat),
        ((l.foldl (fun st1 y => (List.range W).foldl (fun st2 x => match st2 with
            | .error e2 => .error e2
            | .ok _ => paletted_lookup palette_list (canvas x y)) st1) st) = .ok () ∨
         ∃ e', (l.foldl (fun st1 y => (List.range W).foldl (fun st2 x => match st2 with
            | .error e2 => .error e2
            | .ok _ => paletted_lookup palette_list (canvas x y)) st1) st) = .error e' ∧
            (e' = .valueError ∨ e' = .unboundLocal)) := by
    intro st hst l
    induction l generalizing st with
    | nil => exact hst
    | cons hd tl ih =>
        simp only [List.foldl_cons]
        exact ih _ (key st hst (List.range W) hd)
  rcases outer (.ok ()) (Or.inl rfl) (List.range H) with hok | ⟨e', he', hcls⟩
  · rw [h] at hok
    exact absurd hok (by simp)
  · rw [h] at he'
    simp only [Except.error.injEq] at he'
    rw [he']
    exact hcls

theorem create_tilemap_palette_c_error (imgf : Image) (W H : Nat) (e : PyError)
    (h : create_tilemap_palette_c imgf W H = .error e) :
    ∃ m, e = .systemExit m := by
  simp only [create_tilemap_palette_c] at h
  split_ifs at h
  simp only [Except.error.injEq] at h
  exact ⟨_, h.symm⟩

end Butano

namespace Butano

/-- Source: create_compressed_tileset of tilemap_compressor.py.  The input
image (the consolidated tilemap or, under PREVENT_TILEMAP_MINIMIZATION with
a single source image, the opened source bitmap) is given directly as a pixel
function with its tile dimensions.  The capacity check raises OverflowError
with the unique-tile count; on success the function returns the annotated
record table and the atlas width in tiles. -/
def create_compressed_tileset (img : Image) (cols rows : Nat) :
    Except PyError (DedupMap × Nat) :=
  let tc := compare_tiles img cols rows
  if tc.2 ≤ 960 then
    match get_tilemap_size tc.2 with
    | some (W, H) =>
      let cr := create_rgb_tilemap_image img cols rows W H tc.1
      match create_tilemap_palette_c cr.1 W H with
      | .ok pb =>
        match create_paletted_tilemap_image cr.1 W H pb.1 with
        | .ok _ => .ok (cr.2, cols)
        | .error e => .error e
      | .error e => .error e
    | none => .error .unboundLocal
  else .error (.overflowError tc.2)

/-- Source: create_tilemap of tilemap_compressor.py.  The timestamp-driven
cache logic (FORCE_IMAGE_GENERATION, getctime comparisons and the metadata
consistency flag from get_tiles) is filesystem I/O performed around the
algorithmic core; it is represented here by the generate_image flag and the
cached pair it would have loaded.  When generation runs, an OverflowError
from create_compressed_tileset is re-raised for a single map and converted
into the recoverable (none, none, false) triple for a consolidated map;
every other error propagates unchanged. -/
def create_tilemap (img : Image) (cols rows : Nat) (combined_map : Bool)
    (generate_image : Bool) (cached : DedupMap × Nat) :
    Except PyError (Option DedupMap × Option Nat × Bool) :=
  if generate_image then
    match create_compressed_tileset img cols rows with
    | .ok tw => .ok (some tw.1, some tw.2, true)
    | .error (.overflowError n) =>
        if combined_map then .ok (none, none, false)
        else .error (.overflowError n)
    | .error e => .error e
  else .ok (some cached.1, some cached.2, true)

theorem create_compressed_tileset_overflow (img : Image) (cols rows : Nat)
    (h : 960 < (compare_tiles img cols rows).2) :
    create_compressed_tileset img cols rows =
      .error (.overflowError (compare_tiles img cols rows).2) := by
  simp only [create_compressed_tileset]
  rw [if_neg (by omega)]

theorem create_compressed_tileset_no_overflow (img : Image) (cols rows : Nat)
    (h : (compare_tiles img cols rows).2 ≤ 960) :
    ∀ n, create_compressed_tileset img cols rows ≠ .error (.overflowError n) := by
  intro n
  simp only [create_compressed_tileset]
  rw [if_pos h]
  obtain ⟨W, H, hWH⟩ := get_tilemap_size_isSome h
  rw [hWH]
  dsimp only
  cases hp : create_tilemap_palette_c
      (create_rgb_tilemap_image img cols rows W H (compare_tiles img cols rows).1).1 W H with
  | error e =>
      obtain ⟨m, rfl⟩ := create_tilemap_palette_c_error _ _ _ _ hp
      simp
  | ok pb =>
      dsimp only
      cases hq : create_paletted_tilemap_image
          (create_rgb_tilemap_image img cols rows W H (compare_tiles img cols rows).1).1
          W H pb.1 with
      | error e =>
          rcases create_paletted_error _ _ _ _ _ hq with rfl | rfl <;> simp
      | ok u => simp

theorem create_compressed_tileset_overflow_iff (img : Image) (cols rows : Nat) :
    (∃ n, create_compressed_tileset img cols rows = .error (.overflowError n)) ↔
      960 < (compare_tiles img cols rows).2 := by
  constructor
  · rintro ⟨n, hn⟩
    by_contra hle
    exact create_compressed_tileset_no_overflow img cols rows (by omega) n hn
  · intro h
    exact ⟨_, create_compressed_tileset_overflow img cols rows h⟩

theorem create_tilemap_eq (img : Image) (cols rows : Nat) (combined_map : Bool)
    (cached : DedupMap × Nat) :
    create_tilemap img cols rows combined_map true cached =
      if combined_map ∧ 960 < (compare_tiles img cols rows).2 then
        .ok (none, none, false)
      else
        (create_compressed_tileset img cols rows).map
          (fun tw => (some tw.1, some tw.2, true)) := by
  simp only [create_tilemap, if_pos]
  by_cases hov : 960 < (compare_tiles img cols rows).2
  · rw [create_compressed_tileset_overflow img cols rows hov]
    cases combined_map
    · rw [if_neg (by simp [hov])]
      simp [Except.map]
    · rw [if_pos ⟨rfl, hov⟩]
      simp
  · have hle : (compare_tiles img cols rows).2 ≤ 960 := by omega
    rw [if_neg (by rintro ⟨_, h⟩; omega)]
    cases hc : create_compressed_tileset img cols rows with
    | ok tw => rfl
    | error e =>
        cases e with
        | overflowError n => exact absurd hc (create_compressed_tileset_no_overflow img cols rows hle n)
        | systemExit m => rfl
        | valueError => rfl
        | unboundLocal => rfl

end Butano

namespace Butano

/-- Cursor state of the screenblock-aware emission loop of
calculate_tilemap_data: linear position i, per-block counter k (set to -1 by
the first jump rule before the unconditional increment, hence an integer) and
the second-half flag. -/
structure SbState where
  i : Nat
  k : Int
  second : Bool
deriving Repr, DecidableEq

/-- Source: the four jump rules ending the while body of
calculate_tilemap_data (mapdata_generator.py lines 134-146, identical in
mapdata_models.py lines 190-202; create_tilemap_data of tilemap_minimizer.py
is the same loop with the tilesize factor fixed to 2), followed by the
unconditional increments of i and k.  The screenblock mode is active exactly
for a map of width 64 and height 32 or 64 in 8x8 tiles.  Whenever the
tilesize factor F divides the positive width, all assigned values of i are
nonnegative, so Nat arithmetic for i agrees with the Python integers. -/
def sbAdvance (w h F : Nat) (st : SbState) : SbState :=
  let flip := w = 64 ∧ (h = 32 ∨ h = 64)
  let s1 := if flip ∧ st.k = ((w / F : Nat) : Int) - 1 then
      { st with i := st.i + w / F, k := (-1 : Int) } else st
  let s2 := if flip ∧ s1.second = false ∧ s1.i = w * 32 - 1 then
      { s1 with i := w / F - 1, second := true } else s1
  let s3 := if flip ∧ s2.second = true ∧ s2.i = w * 32 + w / F - 1 then
      { s2 with i := w * 32 - 1, second := false } else s2
  let s4 := if flip ∧ s3.second = false ∧ s3.i = w * 64 - 1 then
      { s3 with i := w * 32 + w / F - 1, second := true } else s3
  { s4 with i := s4.i + 1, k := s4.k + 1 }

/-- The while loop of calculate_tilemap_data, with fuel, recording the linear
position emitted by each iteration and the final cursor state. -/
def sbRun (w h F : Nat) : Nat → SbState → List Nat × SbState
  | 0, st => ([], st)
  | fuel + 1, st =>
      if st.i < w * h then
        let rest := sbRun w h F fuel (sbAdvance w h F st)
        (st.i :: rest.1, rest.2)
      else ([], st)

/-- The order in which the loop visits linear cell positions, run with fuel
equal to the cell count (each iteration emits exactly one position). -/
def calculate_tilemap_order (w h F : Nat) : List Nat :=
  (sbRun w h F (w * h) ⟨0, 0, false⟩).1

/-- After w*h iterations the loop condition is false: the loop terminates
having emitted exactly one code per cell. -/
def sbStopped (w h F : Nat) : Prop :=
  ¬ ((sbRun w h F (w * h) ⟨0, 0, false⟩).2.i < w * h)

instance (w h F : Nat) : Decidable (sbStopped w h F) := by
  unfold sbStopped; infer_instance

/-- Left half (columns 0..31) of a 32-row screenblock band, raster order. -/
def leftHalfBand (base : Nat) : List Nat :=
  ((List.range 32).map (fun r => (List.range 32).map (fun c => base + r * 64 + c))).flatten

/-- Right half (columns 32..63) of a 32-row screenblock band, raster order. -/
def rightHalfBand (base : Nat) : List Nat :=
  ((List.range 32).map (fun r => (List.range 32).map (fun c => base + r * 64 + 32 + c))).flatten

/-- Blocks of B consecutive cells at even multiples of B past the offset. -/
def evenBlocks (off B m : Nat) : List Nat :=
  ((List.range m).map (fun k => List.range' (off + 2 * k * B) B)).flatten

/-- Blocks of B consecutive cells at odd multiples of B past the offset. -/
def oddBlocks (off B m : Nat) : List Nat :=
  ((List.range m).map (fun k => List.range' (off + (2 * k + 1) * B) B)).flatten

/-- The emission order the loop realizes on one 32-row screenblock band:
all even-indexed B-blocks in order, then all odd-indexed B-blocks. -/
def bandForm (off B m : Nat) : List Nat := evenBlocks off B m ++ oddBlocks off B m

theorem range'_split (s a b : Nat) :
    List.range' s (a + b) = List.range' s a ++ List.range' (s + a) b := by
  have h2 := List.range'_append s a b 1
  simp only [Nat.one_mul, Nat.mul_one] at h2
  rw [Nat.add_comm b a] at h2
  exact h2.symm

theorem bandForm_perm (B : Nat) :
    ∀ (m off : Nat), (bandForm off B m).Perm (List.range' off (2 * m * B)) := by
  intro m
  induction m with
  | zero =>
      intro off
      simp [bandForm, evenBlocks, oddBlocks]
  | succ m ih =>
      intro off
      have heven : evenBlocks off B (m + 1) =
          evenBlocks off B m ++ List.range' (off + 2 * m * B) B := by
        unfold evenBlocks
        rw [List.range_succ, List.map_append, List.flatten_append]
        simp
      have hodd : oddBlocks off B (m + 1) =
          oddBlocks off B m ++ List.range' (off + 2 * m * B + B) B := by
        unfold oddBlocks
        rw [List.range_succ, List.map_append, List.flatten_append]
        simp only [List.map_cons, List.map_nil, List.flatten_cons, List.flatten_nil,
          List.append_nil]
        have : off + (2 * m + 1) * B = off + 2 * m * B + B := by ring
        rw [this]
      unfold bandForm
      rw [heven, hodd]
      have hperm1 : (evenBlocks off B m ++ List.range' (off + 2 * m * B) B ++
          (oddBlocks off B m ++ List.range' (off + 2 * m * B + B) B)).Perm
          ((evenBlocks off B m ++ oddBlocks off B m) ++
           (List.range' (off + 2 * m * B) B ++ List.range' (off + 2 * m * B + B) B)) := by
        have h1 : evenBlocks off B m ++ List.range' (off + 2 * m * B) B ++
            (oddBlocks off B m ++ List.range' (off + 2 * m * B + B) B) =
            evenBlocks off B m ++ (List.range' (off + 2 * m * B) B ++
              oddBlocks off B m ++ List.range' (off + 2 * m * B + B) B) := by
          simp [List.append_assoc]
        have h2 : (evenBlocks off B m ++ oddBlocks off B m) ++
            (List.range' (off + 2 * m * B) B ++ List.range' (off + 2 * m * B + B) B) =
            evenBlocks off B m ++ (oddBlocks off B m ++
              List.range' (off + 2 * m * B) B ++ List.range' (off + 2 * m * B + B) B) := by
          simp [List.append_assoc]
        rw [h1, h2]
        refine List.Perm.append_left _ ?_
        refine List.Perm.append_right _ ?_
        exact List.perm_append_comm
      refine hperm1.trans ?_
      have hr : List.range' (off + 2 * m * B) B ++ List.range' (off + 2 * m * B + B) B =
          List.range' (off + 2 * m * B) (B + B) := (range'_split _ _ _).symm
      rw [hr]
      have hperm2 := (ih off).append
        (List.Perm.refl (List.range' (off + 2 * m * B) (B + B)))
      refine hperm2.trans ?_
      rw [← range'_split off (2 * m * B) (B + B)]
      have : 2 * m * B + (B + B) = 2 * (m + 1) * B := by ring
      rw [this]

theorem sbAdvance_raster (w h F : Nat) (hflip : ¬(w = 64 ∧ (h = 32 ∨ h = 64)))
    (st : SbState) :
    sbAdvance w h F st = { st with i := st.i + 1, k := st.k + 1 } := by
  have hf : (w = 64 ∧ (h = 32 ∨ h = 64)) = False := eq_false hflip
  simp only [sbAdvance, hf, false_and, if_false]

theorem sbRun_raster (w h F : Nat) (hflip : ¬(w = 64 ∧ (h = 32 ∨ h = 64))) :
    ∀ (fuel : Nat) (st : SbState),
      (sbRun w h F fuel st).1 = List.range' st.i (min fuel (w * h - st.i)) ∧
      (sbRun w h F fuel st).2.i = st.i + min fuel (w * h - st.i) := by
  intro fuel
  induction fuel with
  | zero =>
      intro st
      constructor <;> simp [sbRun]
  | succ fl ih =>
      intro st
      by_cases hi : st.i < w * h
      · have hadv := sbAdvance_raster w h F hflip st
        obtain ⟨ih1, ih2⟩ := ih (sbAdvance w h F st)
        rw [hadv] at ih1 ih2
        have hmin : min (fl + 1) (w * h - st.i) = min fl (w * h - (st.i + 1)) + 1 := by
          omega
        constructor
        · show (sbRun w h F (fl + 1) st).1 = _
          simp only [sbRun, if_pos hi]
          rw [hadv, ih1, hmin, List.range'_succ]
        · show (sbRun w h F (fl + 1) st).2.i = _
          simp only [sbRun, if_pos hi]
          rw [hadv, ih2, hmin]
          dsimp only
          omega
      · have hmin : min (fl + 1) (w * h - st.i) = 0 := by omega
        constructor
        · show (sbRun w h F (fl + 1) st).1 = _
          simp only [sbRun, if_neg hi]
          rw [hmin]
          rfl
        · show (sbRun w h F (fl + 1) st).2.i = _
          simp only [sbRun, if_neg hi]
          rw [hmin]
          rfl

end Butano

namespace Butano

theorem sbRun_stuck (w h F : Nat) (st : SbState) (hi : ¬ st.i < w * h) :
    ∀ b, sbRun w h F b st = ([], st) := by
  intro b
  cases b with
  | zero => rfl
  | succ b => simp only [sbRun, if_neg hi]

theorem sbRun_add (w h F : Nat) : ∀ (a b : Nat) (st : SbState),
    sbRun w h F (a + b) st =
      ((sbRun w h F a st).1 ++ (sbRun w h F b (sbRun w h F a st).2).1,
       (sbRun w h F b (sbRun w h F a st).2).2) := by
  intro a
  induction a with
  | zero =>
      intro b st
      rw [Nat.zero_add]
      rfl
  | succ a ih =>
      intro b st
      by_cases hi : st.i < w * h
      · have hre : a + 1 + b = (a + b) + 1 := by omega
        rw [hre]
        simp only [sbRun, if_pos hi]
        rw [ih b (sbAdvance w h F st)]
        rfl
      · have hs := sbRun_stuck w h F st hi
        rw [hs (a + 1 + b), hs (a + 1)]
        dsimp only
        rw [hs b]
        rfl

theorem sbRun_add2 (w h F a b : Nat) (st0 : SbState) (t1 t2 : List Nat)
    (s1 s2 : SbState) (h1 : sbRun w h F a st0 = (t1, s1))
    (h2 : sbRun w h F b s1 = (t2, s2)) :
    sbRun w h F (a + b) st0 = (t1 ++ t2, s2) := by
  rw [sbRun_add, h1]
  dsimp only
  rw [h2]

theorem bandPerm2048 (B m : Nat) (hB : 2 * m * B = 2048) :
    (bandForm 0 B m).Perm (List.range 2048) := by
  have hp := bandForm_perm B m 0
  rw [hB] at hp
  rw [List.range_eq_range']
  exact hp

theorem bandPerm4096 (B m : Nat) (hB : 2 * m * B = 2048) :
    (bandForm 0 B m ++ bandForm 2048 B m).Perm (List.range 4096) := by
  have hp1 := bandForm_perm B m 0
  have hp2 := bandForm_perm B m 2048
  rw [hB] at hp1 hp2
  have hp := hp1.append hp2
  have hsplit := range'_split 0 2048 2048
  rw [show (0 : Nat) + 2048 = 2048 from rfl] at hsplit
  rw [← hsplit] at hp
  rw [List.range_eq_range']
  exact hp

theorem evenBlocks_append (off B m1 m2 : Nat) :
    evenBlocks off B (m1 + m2) =
      evenBlocks off B m1 ++ evenBlocks (off + 2 * m1 * B) B m2 := by
  unfold evenBlocks
  rw [List.range_add, List.map_append, List.flatten_append]
  congr 1
  rw [List.map_map]
  congr 1
  apply List.map_congr_left
  intro k hk
  simp only [Function.comp_apply]
  congr 1
  ring

theorem oddBlocks_append (off B m1 m2 : Nat) :
    oddBlocks off B (m1 + m2) =
      oddBlocks off B m1 ++ oddBlocks (off + 2 * m1 * B) B m2 := by
  unfold oddBlocks
  rw [List.range_add, List.map_append, List.flatten_append]
  congr 1
  rw [List.map_map]
  congr 1
  apply List.map_congr_left
  intro k hk
  simp only [Function.comp_apply]
  congr 1
  ring

set_option maxRecDepth 100000 in
theorem sb32F1a : sbRun 64 32 1 1024 ⟨0, 0, false⟩ =
    (evenBlocks 0 64 16, ⟨64, 0, true⟩) := by decide

set_option maxRecDepth 100000 in
theorem sb32F1b : sbRun 64 32 1 1024 ⟨64, 0, true⟩ =
    (oddBlocks 0 64 16, ⟨2048, 0, false⟩) := by decide

set_option maxRecDepth 100000 in
theorem sb64F1a : sbRun 64 64 1 1024 ⟨0, 0, false⟩ =
    (evenBlocks 0 64 16, ⟨64, 0, true⟩) := by decide

set_option maxRecDepth 100000 in
theorem sb64F1b : sbRun 64 64 1 1024 ⟨64, 0, true⟩ =
    (oddBlocks 0 64 16, ⟨2048, 0, false⟩) := by decide

set_option maxRecDepth 100000 in
theorem sb64F1c : sbRun 64 64 1 1024 ⟨2048, 0, false⟩ =
    (evenBlocks 2048 64 16, ⟨2112, 0, true⟩) := by decide

set_option maxRecDepth 100000 in
theorem sb64F1d : sbRun 64 64 1 1024 ⟨2112, 0, true⟩ =
    (oddBlocks 2048 64 16, ⟨4160, 0, true⟩) := by decide

theorem ordRun32F1 : sbRun 64 32 1 (64 * 32) ⟨0, 0, false⟩ =
    (bandForm 0 64 16, ⟨2048, 0, false⟩) :=
  sbRun_add2 64 32 1 1024 1024 ⟨0, 0, false⟩ _ _ _ _ sb32F1a sb32F1b

theorem ordRun64F1 : sbRun 64 64 1 (64 * 64) ⟨0, 0, false⟩ =
    (bandForm 0 64 16 ++ bandForm 2048 64 16, ⟨4160, 0, true⟩) :=
  sbRun_add2 64 64 1 2048 2048 ⟨0, 0, false⟩ _ _ _ _
    (sbRun_add2 64 64 1 1024 1024 ⟨0, 0, false⟩ _ _ _ _ sb64F1a sb64F1b)
    (sbRun_add2 64 64 1 1024 1024 ⟨2048, 0, false⟩ _ _ _ _ sb64F1c sb64F1d)

theorem ord32F1 : calculate_tilemap_order 64 32 1 = bandForm 0 64 16 ∧
    sbStopped 64 32 1 := by
  constructor
  · show (sbRun 64 32 1 (64 * 32) ⟨0, 0, false⟩).1 = _
    rw [ordRun32F1]
  · show ¬ ((sbRun 64 32 1 (64 * 32) ⟨0, 0, false⟩).2.i < 64 * 32)
    rw [ordRun32F1]
    decide

theorem ord64F1 : calculate_tilemap_order 64 64 1 =
    bandForm 0 64 16 ++ bandForm 2048 64 16 ∧ sbStopped 64 64 1 := by
  constructor
  · show (sbRun 64 64 1 (64 * 64) ⟨0, 0, false⟩).1 = _
    rw [ordRun64F1]
  · show ¬ ((sbRun 64 64 1 (64 * 64) ⟨0, 0, false⟩).2.i < 64 * 64)
    rw [ordRun64F1]
    decide

set_option maxRecDepth 100000 in
theorem sb32F2a : sbRun 64 32 2 1024 ⟨0, 0, false⟩ =
    (evenBlocks 0 32 32, ⟨32, 0, true⟩) := by decide

set_option maxRecDepth 100000 in
theorem sb32F2b : sbRun 64 32 2 1024 ⟨32, 0, true⟩ =
    (oddBlocks 0 32 32, ⟨2048, 0, false⟩) := by decide

set_option maxRecDepth 100000 in
theorem sb64F2a : sbRun 64 64 2 1024 ⟨0, 0, false⟩ =
    (evenBlocks 0 32 32, ⟨32, 0, true⟩) := by decide

set_option maxRecDepth 100000 in
theorem sb64F2b : sbRun 64 64 2 1024 ⟨32, 0, true⟩ =
    (oddBlocks 0 32 32, ⟨2048, 0, false⟩) := by decide

set_option maxRecDepth 100000 in
theorem sb64F2c : sbRun 64 64 2 1024 ⟨2048, 0, false⟩ =
    (evenBlocks 2048 32 32, ⟨2080, 0, true⟩) := by decide

set_option maxRecDepth 100000 in
theorem sb64F2d : sbRun 64 64 2 1024 ⟨2080, 0, true⟩ =
    (oddBlocks 2048 32 32, ⟨4128, 0, true⟩) := by decide

theorem ordRun32F2 : sbRun 64 32 2 (64 * 32) ⟨0, 0, false⟩ =
    (bandForm 0 32 32, ⟨2048, 0, false⟩) :=
  sbRun_add2 64 32 2 1024 1024 ⟨0, 0, false⟩ _ _ _ _ sb32F2a sb32F2b

theorem ordRun64F2 : sbRun 64 64 2 (64 * 64) ⟨0, 0, false⟩ =
    (bandForm 0 32 32 ++ bandForm 2048 32 32, ⟨4128, 0, true⟩) :=
  sbRun_add2 64 64 2 2048 2048 ⟨0, 0, false⟩ _ _ _ _
    (sbRun_add2 64 64 2 1024 1024 ⟨0, 0, false⟩ _ _ _ _ sb64F2a sb64F2b)
    (sbRun_add2 64 64 2 1024 1024 ⟨2048, 0, false⟩ _ _ _ _ sb64F2c sb64F2d)

theorem ord32F2 : calculate_tilemap_order 64 32 2 = bandForm 0 32 32 ∧
    sbStopped 64 32 2 := by
  constructor
  · show (sbRun 64 32 2 (64 * 32) ⟨0, 0, false⟩).1 = _
    rw [ordRun32F2]
  · show ¬ ((sbRun 64 32 2 (64 * 32) ⟨0, 0, false⟩).2.i < 64 * 32)
    rw [ordRun32F2]
    decide

theorem ord64F2 : calculate_tilemap_order 64 64 2 =
    bandForm 0 32 32 ++ bandForm 2048 32 32 ∧ sbStopped 64 64 2 := by
  constructor
  · show (sbRun 64 64 2 (64 * 64) ⟨0, 0, false⟩).1 = _
    rw [ordRun64F2]
  · show ¬ ((sbRun 64 64 2 (64 * 64) ⟨0, 0, false⟩).2.i < 64 * 64)
    rw [ordRun64F2]
    decide

set_option maxRecDepth 100000 in
theorem sb32F4a : sbRun 64 32 4 1024 ⟨0, 0, false⟩ =
    (evenBlocks 0 16 64, ⟨16, 0, true⟩) := by decide

set_option maxRecDepth 100000 in
theorem sb32F4b : sbRun 64 32 4 1024 ⟨16, 0, true⟩ =
    (oddBlocks 0 16 64, ⟨2048, 0, false⟩) := by decide

set_option maxRecDepth 100000 in
theorem sb64F4a : sbRun 64 64 4 1024 ⟨0, 0, false⟩ =
    (evenBlocks 0 16 64, ⟨16, 0, true⟩) := by decide

set_option maxRecDepth 100000 in
theorem sb64F4b : sbRun 64 64 4 1024 ⟨16, 0, true⟩ =
    (oddBlocks 0 16 64, ⟨2048, 0, false⟩) := by decide

set_option maxRecDepth 100000 in
theorem sb64F4c : sbRun 64 64 4 1024 ⟨2048, 0, false⟩ =
    (evenBlocks 2048 16 64, ⟨2064, 0, true⟩) := by decide

set_option maxRecDepth 100000 in
theorem sb64F4d : sbRun 64 64 4 1024 ⟨2064, 0, true⟩ =
    (oddBlocks 2048 16 64, ⟨4112, 0, true⟩) := by decide

theorem ordRun32F4 : sbRun 64 32 4 (64 * 32) ⟨0, 0, false⟩ =
    (bandForm 0 16 64, ⟨2048, 0, false⟩) :=
  sbRun_add2 64 32 4 1024 1024 ⟨0, 0, false⟩ _ _ _ _ sb32F4a sb32F4b

theorem ordRun64F4 : sbRun 64 64 4 (64 * 64) ⟨0, 0, false⟩ =
    (bandForm 0 16 64 ++ bandForm 2048 16 64, ⟨4112, 0, true⟩) :=
  sbRun_add2 64 64 4 2048 2048 ⟨0, 0, false⟩ _ _ _ _
    (sbRun_add2 64 64 4 1024 1024 ⟨0, 0, false⟩ _ _ _ _ sb64F4a sb64F4b)
    (sbRun_add2 64 64 4 1024 1024 ⟨2048, 0, false⟩ _ _ _ _ sb64F4c sb64F4d)

theorem ord32F4 : calculate_tilemap_order 64 32 4 = bandForm 0 16 64 ∧
    sbStopped 64 32 4 := by
  constructor
  · show (sbRun 64 32 4 (64 * 32) ⟨0, 0, false⟩).1 = _
    rw [ordRun32F4]
  · show ¬ ((sbRun 64 32 4 (64 * 32) ⟨0, 0, false⟩).2.i < 64 * 32)
    rw [ordRun32F4]
    decide

theorem ord64F4 : calculate_tilemap_order 64 64 4 =
    bandForm 0 16 64 ++ bandForm 2048 16 64 ∧ sbStopped 64 64 4 := by
  constructor
  · show (sbRun 64 64 4 (64 * 64) ⟨0, 0, false⟩).1 = _
    rw [ordRun64F4]
  · show ¬ ((sbRun 64 64 4 (64 * 64) ⟨0, 0, false⟩).2.i < 64 * 64)
    rw [ordRun64F4]
    decide

set_option maxRecDepth 100000 in
theorem sb32F8a : sbRun 64 32 8 1024 ⟨0, 0, false⟩ =
    (evenBlocks 0 8 128, ⟨8, 0, true⟩) := by decide

set_option maxRecDepth 100000 in
theorem sb32F8b : sbRun 64 32 8 1024 ⟨8, 0, true⟩ =
    (oddBlocks 0 8 128, ⟨2048, 0, false⟩) := by decide

set_option maxRecDepth 100000 in
theorem sb64F8a : sbRun 64 64 8 1024 ⟨0, 0, false⟩ =
    (evenBlocks 0 8 128, ⟨8, 0, true⟩) := by decide

set_option maxRecDepth 100000 in
theorem sb64F8b : sbRun 64 64 8 1024 ⟨8, 0, true⟩ =
    (oddBlocks 0 8 128, ⟨2048, 0, false⟩) := by decide

set_option maxRecDepth 100000 in
theorem sb64F8c : sbRun 64 64 8 1024 ⟨2048, 0, false⟩ =
    (evenBlocks 2048 8 128, ⟨2056, 0, true⟩) := by decide

set_option maxRecDepth 100000 in
theorem sb64F8d : sbRun 64 64 8 1024 ⟨2056, 0, true⟩ =
    (oddBlocks 2048 8 128, ⟨4104, 0, true⟩) := by decide

theorem ordRun32F8 : sbRun 64 32 8 (64 * 32) ⟨0, 0, false⟩ =
    (bandForm 0 8 128, ⟨2048, 0, false⟩) :=
  sbRun_add2 64 32 8 1024 1024 ⟨0, 0, false⟩ _ _ _ _ sb32F8a sb32F8b

theorem ordRun64F8 : sbRun 64 64 8 (64 * 64) ⟨0, 0, false⟩ =
    (bandForm 0 8 128 ++ bandForm 2048 8 128, ⟨4104, 0, true⟩) :=
  sbRun_add2 64 64 8 2048 2048 ⟨0, 0, false⟩ _ _ _ _
    (sbRun_add2 64 64 8 1024 1024 ⟨0, 0, false⟩ _ _ _ _ sb64F8a sb64F8b)
    (sbRun_add2 64 64 8 1024 1024 ⟨2048, 0, false⟩ _ _ _ _ sb64F8c sb64F8d)

theorem ord32F8 : calculate_tilemap_order 64 32 8 = bandForm 0 8 128 ∧
    sbStopped 64 32 8 := by
  constructor
  · show (sbRun 64 32 8 (64 * 32) ⟨0, 0, false⟩).1 = _
    rw [ordRun32F8]
  · show ¬ ((sbRun 64 32 8 (64 * 32) ⟨0, 0, false⟩).2.i < 64 * 32)
    rw [ordRun32F8]
    decide

theorem ord64F8 : calculate_tilemap_order 64 64 8 =
    bandForm 0 8 128 ++ bandForm 2048 8 128 ∧ sbStopped 64 64 8 := by
  constructor
  · show (sbRun 64 64 8 (64 * 64) ⟨0, 0, false⟩).1 = _
    rw [ordRun64F8]
  · show ¬ ((sbRun 64 64 8 (64 * 64) ⟨0, 0, false⟩).2.i < 64 * 64)
    rw [ordRun64F8]
    decide

set_option maxRecDepth 100000 in
theorem sb32F16a : sbRun 64 32 16 1024 ⟨0, 0, false⟩ =
    (evenBlocks 0 4 256, ⟨4, 0, true⟩) := by decide

set_option maxRecDepth 100000 in
theorem sb32F16b : sbRun 64 32 16 1024 ⟨4, 0, true⟩ =
    (oddBlocks 0 4 256, ⟨2048, 0, false⟩) := by decide

set_option maxRecDepth 100000 in
theorem sb64F16a : sbRun 64 64 16 1024 ⟨0, 0, false⟩ =
    (evenBlocks 0 4 256, ⟨4, 0, true⟩) := by decide

set_option maxRecDepth 100000 in
theorem sb64F16b : sbRun 64 64 16 1024 ⟨4, 0, true⟩ =
    (oddBlocks 0 4 256, ⟨2048, 0, false⟩) := by decide

set_option maxRecDepth 100000 in
theorem sb64F16c : sbRun 64 64 16 1024 ⟨2048, 0, false⟩ =
    (evenBlocks 2048 4 256, ⟨2052, 0, true⟩) := by decide

set_option maxRecDepth 100000 in
theorem sb64F16d : sbRun 64 64 16 1024 ⟨2052, 0, true⟩ =
    (oddBlocks 2048 4 256, ⟨4100, 0, true⟩) := by decide

theorem ordRun32F16 : sbRun 64 32 16 (64 * 32) ⟨0, 0, false⟩ =
    (bandForm 0 4 256, ⟨2048, 0, false⟩) :=
  sbRun_add2 64 32 16 1024 1024 ⟨0, 0, false⟩ _ _ _ _ sb32F16a sb32F16b

theorem ordRun64F16 : sbRun 64 64 16 (64 * 64) ⟨0, 0, false⟩ =
    (bandForm 0 4 256 ++ bandForm 2048 4 256, ⟨4100, 0, true⟩) :=
  sbRun_add2 64 64 16 2048 2048 ⟨0, 0, false⟩ _ _ _ _
    (sbRun_add2 64 64 16 1024 1024 ⟨0, 0, false⟩ _ _ _ _ sb64F16a sb64F16b)
    (sbRun_add2 64 64 16 1024 1024 ⟨2048, 0, false⟩ _ _ _ _ sb64F16c sb64F16d)

theorem ord32F16 : calculate_tilemap_order 64 32 16 = bandForm 0 4 256 ∧
    sbStopped 64 32 16 := by
  constructor
  · show (sbRun 64 32 16 (64 * 32) ⟨0, 0, false⟩).1 = _
    rw [ordRun32F16]
  · show ¬ ((sbRun 64 32 16 (64 * 32) ⟨0, 0, false⟩).2.i < 64 * 32)
    rw [ordRun32F16]
    decide

theorem ord64F16 : calculate_tilemap_order 64 64 16 =
    bandForm 0 4 256 ++ bandForm 2048 4 256 ∧ sbStopped 64 64 16 := by
  constructor
  · show (sbRun 64 64 16 (64 * 64) ⟨0, 0, false⟩).1 = _
    rw [ordRun64F16]
  · show ¬ ((sbRun 64 64 16 (64 * 64) ⟨0, 0, false⟩).2.i < 64 * 64)
    rw [ordRun64F16]
    decide

set_option maxRecDepth 100000 in
theorem sb32F32a1 : sbRun 64 32 32 512 ⟨0, 0, false⟩ =
    (evenBlocks 0 2 256, ⟨1024, 0, false⟩) := by decide

set_option maxRecDepth 100000 in
theorem sb32F32a2 : sbRun 64 32 32 512 ⟨1024, 0, false⟩ =
    (evenBlocks 1024 2 256, ⟨2, 0, true⟩) := by decide

set_option maxRecDepth 100000 in
theorem sb32F32b1 : sbRun 64 32 32 512 ⟨2, 0, true⟩ =
    (oddBlocks 0 2 256, ⟨1026, 0, true⟩) := by decide

set_option maxRecDepth 100000 in
theorem sb32F32b2 : sbRun 64 32 32 512 ⟨1026, 0, true⟩ =
    (oddBlocks 1024 2 256, ⟨2048, 0, false⟩) := by decide

set_option maxRecDepth 100000 in
theorem sb64F32a1 : sbRun 64 64 32 512 ⟨0, 0, false⟩ =
    (evenBlocks 0 2 256, ⟨1024, 0, false⟩) := by decide

set_option maxRecDepth 100000 in
theorem sb64F32a2 : sbRun 64 64 32 512 ⟨1024, 0, false⟩ =
    (evenBlocks 1024 2 256, ⟨2, 0, true⟩) := by decide

set_option maxRecDepth 100000 in
theorem sb64F32b1 : sbRun 64 64 32 512 ⟨2, 0, true⟩ =
    (oddBlocks 0 2 256, ⟨1026, 0, true⟩) := by decide

set_option maxRecDepth 100000 in
theorem sb64F32b2 : sbRun 64 64 32 512 ⟨1026, 0, true⟩ =
    (oddBlocks 1024 2 256, ⟨2048, 0, false⟩) := by decide

set_option maxRecDepth 100000 in
theorem sb64F32c1 : sbRun 64 64 32 512 ⟨2048, 0, false⟩ =
    (evenBlocks 2048 2 256, ⟨3072, 0, false⟩) := by decide

set_option maxRecDepth 100000 in
theorem sb64F32c2 : sbRun 64 64 32 512 ⟨3072, 0, false⟩ =
    (evenBlocks 3072 2 256, ⟨2050, 0, true⟩) := by decide

set_option maxRecDepth 100000 in
theorem sb64F32d1 : sbRun 64 64 32 512 ⟨2050, 0, true⟩ =
    (oddBlocks 2048 2 256, ⟨3074, 0, true⟩) := by decide

set_option maxRecDepth 100000 in
theorem sb64F32d2 : sbRun 64 64 32 512 ⟨3074, 0, true⟩ =
    (oddBlocks 3072 2 256, ⟨4098, 0, true⟩) := by decide

theorem sb32F32a : sbRun 64 32 32 1024 ⟨0, 0, false⟩ =
    (evenBlocks 0 2 512, ⟨2, 0, true⟩) := by
  have h12 := sbRun_add2 64 32 32 512 512 ⟨0, 0, false⟩ _ _ _ _ sb32F32a1 sb32F32a2
  have happ := evenBlocks_append 0 2 256 256
  norm_num at happ
  rw [happ]
  exact h12

theorem sb32F32b : sbRun 64 32 32 1024 ⟨2, 0, true⟩ =
    (oddBlocks 0 2 512, ⟨2048, 0, false⟩) := by
  have h12 := sbRun_add2 64 32 32 512 512 ⟨2, 0, true⟩ _ _ _ _ sb32F32b1 sb32F32b2
  have happ := oddBlocks_append 0 2 256 256
  norm_num at happ
  rw [happ]
  exact h12

theorem sb64F32a : sbRun 64 64 32 1024 ⟨0, 0, false⟩ =
    (evenBlocks 0 2 512, ⟨2, 0, true⟩) := by
  have h12 := sbRun_add2 64 64 32 512 512 ⟨0, 0, false⟩ _ _ _ _ sb64F32a1 sb64F32a2
  have happ := evenBlocks_append 0 2 256 256
  norm_num at happ
  rw [happ]
  exact h12

theorem sb64F32b : sbRun 64 64 32 1024 ⟨2, 0, true⟩ =
    (oddBlocks 0 2 512, ⟨2048, 0, false⟩) := by
  have h12 := sbRun_add2 64 64 32 512 512 ⟨2, 0, true⟩ _ _ _ _ sb64F32b1 sb64F32b2
  have happ := oddBlocks_append 0 2 256 256
  norm_num at happ
  rw [happ]
  exact h12

theorem sb64F32c : sbRun 64 64 32 1024 ⟨2048, 0, false⟩ =
    (evenBlocks 2048 2 512, ⟨2050, 0, true⟩) := by
  have h12 := sbRun_add2 64 64 32 512 512 ⟨2048, 0, false⟩ _ _ _ _ sb64F32c1 sb64F32c2
  have happ := evenBlocks_append 2048 2 256 256
  norm_num at happ
  rw [happ]
  exact h12

theorem sb64F32d : sbRun 64 64 32 1024 ⟨2050, 0, true⟩ =
    (oddBlocks 2048 2 512, ⟨4098, 0, true⟩) := by
  have h12 := sbRun_add2 64 64 32 512 512 ⟨2050, 0, true⟩ _ _ _ _ sb64F32d1 sb64F32d2
  have happ := oddBlocks_append 2048 2 256 256
  norm_num at happ
  rw [happ]
  exact h12

theorem ordRun32F32 : sbRun 64 32 32 (64 * 32) ⟨0, 0, false⟩ =
    (bandForm 0 2 512, ⟨2048, 0, false⟩) :=
  sbRun_add2 64 32 32 1024 1024 ⟨0, 0, false⟩ _ _ _ _ sb32F32a sb32F32b

theorem ordRun64F32 : sbRun 64 64 32 (64 * 64) ⟨0, 0, false⟩ =
    (bandForm 0 2 512 ++ bandForm 2048 2 512, ⟨4098, 0, true⟩) :=
  sbRun_add2 64 64 32 2048 2048 ⟨0, 0, false⟩ _ _ _ _
    (sbRun_add2 64 64 32 1024 1024 ⟨0, 0, false⟩ _ _ _ _ sb64F32a sb64F32b)
    (sbRun_add2 64 64 32 1024 1024 ⟨2048, 0, false⟩ _ _ _ _ sb64F32c sb64F32d)

theorem ord32F32 : calculate_tilemap_order 64 32 32 = bandForm 0 2 512 ∧
    sbStopped 64 32 32 := by
  constructor
  · show (sbRun 64 32 32 (64 * 32) ⟨0, 0, false⟩).1 = _
    rw [ordRun32F32]
  · show ¬ ((sbRun 64 32 32 (64 * 32) ⟨0, 0, false⟩).2.i < 64 * 32)
    rw [ordRun32F32]
    decide

theorem ord64F32 : calculate_tilemap_order 64 64 32 =
    bandForm 0 2 512 ++ bandForm 2048 2 512 ∧ sbStopped 64 64 32 := by
  constructor
  · show (sbRun 64 64 32 (64 * 64) ⟨0, 0, false⟩).1 = _
    rw [ordRun64F32]
  · show ¬ ((sbRun 64 64 32 (64 * 64) ⟨0, 0, false⟩).2.i < 64 * 64)
    rw [ordRun64F32]
    decide

set_option maxRecDepth 100000 in
theorem sb32F64a1 : sbRun 64 32 64 256 ⟨0, 0, false⟩ =
    (evenBlocks 0 1 256, ⟨512, 0, false⟩) := by decide

set_option maxRecDepth 100000 in
theorem sb32F64a2 : sbRun 64 32 64 256 ⟨512, 0, false⟩ =
    (evenBlocks 512 1 256, ⟨1024, 0, false⟩) := by decide

set_option maxRecDepth 100000 in
theorem sb32F64a3 : sbRun 64 32 64 256 ⟨1024, 0, false⟩ =
    (evenBlocks 1024 1 256, ⟨1536, 0, false⟩) := by decide

set_option maxRecDepth 100000 in
theorem sb32F64a4 : sbRun 64 32 64 256 ⟨1536, 0, false⟩ =
    (evenBlocks 1536 1 256, ⟨1, 0, true⟩) := by decide

set_option maxRecDepth 100000 in
theorem sb32F64b1 : sbRun 64 32 64 256 ⟨1, 0, true⟩ =
    (oddBlocks 0 1 256, ⟨513, 0, true⟩) := by decide

set_option maxRecDepth 100000 in
theorem sb32F64b2 : sbRun 64 32 64 256 ⟨513, 0, true⟩ =
    (oddBlocks 512 1 256, ⟨1025, 0, true⟩) := by decide

set_option maxRecDepth 100000 in
theorem sb32F64b3 : sbRun 64 32 64 256 ⟨1025, 0, true⟩ =
    (oddBlocks 1024 1 256, ⟨1537, 0, true⟩) := by decide

set_option maxRecDepth 100000 in
theorem sb32F64b4 : sbRun 64 32 64 256 ⟨1537, 0, true⟩ =
    (oddBlocks 1536 1 256, ⟨2048, 0, false⟩) := by decide

set_option maxRecDepth 100000 in
theorem sb64F64a1 : sbRun 64 64 64 256 ⟨0, 0, false⟩ =
    (evenBlocks 0 1 256, ⟨512, 0, false⟩) := by decide

set_option maxRecDepth 100000 in
theorem sb64F64a2 : sbRun 64 64 64 256 ⟨512, 0, false⟩ =
    (evenBlocks 512 1 256, ⟨1024, 0, false⟩) := by decide

set_option maxRecDepth 100000 in
theorem sb64F64a3 : sbRun 64 64 64 256 ⟨1024, 0, false⟩ =
    (evenBlocks 1024 1 256, ⟨1536, 0, false⟩) := by decide

set_option maxRecDepth 100000 in
theorem sb64F64a4 : sbRun 64 64 64 256 ⟨1536, 0, false⟩ =
    (evenBlocks 1536 1 256, ⟨1, 0, true⟩) := by decide

set_option maxRecDepth 100000 in
theorem sb64F64b1 : sbRun 64 64 64 256 ⟨1, 0, true⟩ =
    (oddBlocks 0 1 256, ⟨513, 0, true⟩) := by decide

set_option maxRecDepth 100000 in
theorem sb64F64b2 : sbRun 64 64 64 256 ⟨513, 0, true⟩ =
    (oddBlocks 512 1 256, ⟨1025, 0, true⟩) := by decide

set_option maxRecDepth 100000 in
theorem sb64F64b3 : sbRun 64 64 64 256 ⟨1025, 0, true⟩ =
    (oddBlocks 1024 1 256, ⟨1537, 0, true⟩) := by decide

set_option maxRecDepth 100000 in
theorem sb64F64b4 : sbRun 64 64 64 256 ⟨1537, 0, true⟩ =
    (oddBlocks 1536 1 256, ⟨2048, 0, false⟩) := by decide

set_option maxRecDepth 100000 in
theorem sb64F64c1 : sbRun 64 64 64 256 ⟨2048, 0, false⟩ =
    (evenBlocks 2048 1 256, ⟨2560, 0, false⟩) := by decide

set_option maxRecDepth 100000 in
theorem sb64F64c2 : sbRun 64 64 64 256 ⟨2560, 0, false⟩ =
    (evenBlocks 2560 1 256, ⟨3072, 0, false⟩) := by decide

set_option maxRecDepth 100000 in
theorem sb64F64c3 : sbRun 64 64 64 256 ⟨3072, 0, false⟩ =
    (evenBlocks 3072 1 256, ⟨3584, 0, false⟩) := by decide

set_option maxRecDepth 100000 in
theorem sb64F64c4 : sbRun 64 64 64 256 ⟨3584, 0, false⟩ =
    (evenBlocks 3584 1 256, ⟨2049, 0, true⟩) := by decide

set_option maxRecDepth 100000 in
theorem sb64F64d1 : sbRun 64 64 64 256 ⟨2049, 0, true⟩ =
    (oddBlocks 2048 1 256, ⟨2561, 0, true⟩) := by decide

set_option maxRecDepth 100000 in
theorem sb64F64d2 : sbRun 64 64 64 256 ⟨2561, 0, true⟩ =
    (oddBlocks 2560 1 256, ⟨3073, 0, true⟩) := by decide

set_option maxRecDepth 100000 in
theorem sb64F64d3 : sbRun 64 64 64 256 ⟨3073, 0, true⟩ =
    (oddBlocks 3072 1 256, ⟨3585, 0, true⟩) := by decide

set_option maxRecDepth 100000 in
theorem sb64F64d4 : sbRun 64 64 64 256 ⟨3585, 0, true⟩ =
    (oddBlocks 3584 1 256, ⟨4097, 0, true⟩) := by decide

theorem sb32F64a : sbRun 64 32 64 1024 ⟨0, 0, false⟩ =
    (evenBlocks 0 1 1024, ⟨1, 0, true⟩) := by
  have h12 := sbRun_add2 64 32 64 256 256 ⟨0, 0, false⟩ _ _ _ _ sb32F64a1 sb32F64a2
  have h34 := sbRun_add2 64 32 64 256 256 ⟨1024, 0, false⟩ _ _ _ _ sb32F64a3 sb32F64a4
  have h := sbRun_add2 64 32 64 512 512 ⟨0, 0, false⟩ _ _ _ _ h12 h34
  have happ1 := evenBlocks_append 0 1 512 512
  have happ2 := evenBlocks_append 0 1 256 256
  have happ3 := evenBlocks_append 1024 1 256 256
  norm_num at happ1 happ2 happ3
  rw [happ1, happ2, happ3]
  exact h

theorem sb32F64b : sbRun 64 32 64 1024 ⟨1, 0, true⟩ =
    (oddBlocks 0 1 1024, ⟨2048, 0, false⟩) := by
  have h12 := sbRun_add2 64 32 64 256 256 ⟨1, 0, true⟩ _ _ _ _ sb32F64b1 sb32F64b2
  have h34 := sbRun_add2 64 32 64 256 256 ⟨1025, 0, true⟩ _ _ _ _ sb32F64b3 sb32F64b4
  have h := sbRun_add2 64 32 64 512 512 ⟨1, 0, true⟩ _ _ _ _ h12 h34
  have happ1 := oddBlocks_append 0 1 512 512
  have happ2 := oddBlocks_append 0 1 256 256
  have happ3 := oddBlocks_append 1024 1 256 256
  norm_num at happ1 happ2 happ3
  rw [happ1, happ2, happ3]
  exact h

theorem sb64F64a : sbRun 64 64 64 1024 ⟨0, 0, false⟩ =
    (evenBlocks 0 1 1024, ⟨1, 0, true⟩) := by
  have h12 := sbRun_add2 64 64 64 256 256 ⟨0, 0, false⟩ _ _ _ _ sb64F64a1 sb64F64a2
  have h34 := sbRun_add2 64 64 64 256 256 ⟨1024, 0, false⟩ _ _ _ _ sb64F64a3 sb64F64a4
  have h := sbRun_add2 64 64 64 512 512 ⟨0, 0, false⟩ _ _ _ _ h12 h34
  have happ1 := evenBlocks_append 0 1 512 512
  have happ2 := evenBlocks_append 0 1 256 256
  have happ3 := evenBlocks_append 1024 1 256 256
  norm_num at happ1 happ2 happ3
  rw [happ1, happ2, happ3]
  exact h

theorem sb64F64b : sbRun 64 64 64 1024 ⟨1, 0, true⟩ =
    (oddBlocks 0 1 1024, ⟨2048, 0, false⟩) := by
  have h12 := sbRun_add2 64 64 64 256 256 ⟨1, 0, true⟩ _ _ _ _ sb64F64b1 sb64F64b2
  have h34 := sbRun_add2 64 64 64 256 256 ⟨1025, 0, true⟩ _ _ _ _ sb64F64b3 sb64F64b4
  have h := sbRun_add2 64 64 64 512 512 ⟨1, 0, true⟩ _ _ _ _ h12 h34
  have happ1 := oddBlocks_append 0 1 512 512
  have happ2 := oddBlocks_append 0 1 256 256
  have happ3 := oddBlocks_append 1024 1 256 256
  norm_num at happ1 happ2 happ3
  rw [happ1, happ2, happ3]
  exact h

theorem sb64F64c : sbRun 64 64 64 1024 ⟨2048, 0, false⟩ =
    (evenBlocks 2048 1 1024, ⟨2049, 0, true⟩) := by
  have h12 := sbRun_add2 64 64 64 256 256 ⟨2048, 0, false⟩ _ _ _ _ sb64F64c1 sb64F64c2
  have h34 := sbRun_add2 64 64 64 256 256 ⟨3072, 0, false⟩ _ _ _ _ sb64F64c3 sb64F64c4
  have h := sbRun_add2 64 64 64 512 512 ⟨2048, 0, false⟩ _ _ _ _ h12 h34
  have happ1 := evenBlocks_append 2048 1 512 512
  have happ2 := evenBlocks_append 2048 1 256 256
  have happ3 := evenBlocks_append 3072 1 256 256
  norm_num at happ1 happ2 happ3
  rw [happ1, happ2, happ3]
  exact h

theorem sb64F64d : sbRun 64 64 64 1024 ⟨2049, 0, true⟩ =
    (oddBlocks 2048 1 1024, ⟨4097, 0, true⟩) := by
  have h12 := sbRun_add2 64 64 64 256 256 ⟨2049, 0, true⟩ _ _ _ _ sb64F64d1 sb64F64d2
  have h34 := sbRun_add2 64 64 64 256 256 ⟨3073, 0, true⟩ _ _ _ _ sb64F64d3 sb64F64d4
  have h := sbRun_add2 64 64 64 512 512 ⟨2049, 0, true⟩ _ _ _ _ h12 h34
  have happ1 := oddBlocks_append 2048 1 512 512
  have happ2 := oddBlocks_append 2048 1 256 256
  have happ3 := oddBlocks_append 3072 1 256 256
  norm_num at happ1 happ2 happ3
  rw [happ1, happ2, happ3]
  exact h

theorem ordRun32F64 : sbRun 64 32 64 (64 * 32) ⟨0, 0, false⟩ =
    (bandForm 0 1 1024, ⟨2048, 0, false⟩) :=
  sbRun_add2 64 32 64 1024 1024 ⟨0, 0, false⟩ _ _ _ _ sb32F64a sb32F64b

theorem ordRun64F64 : sbRun 64 64 64 (64 * 64) ⟨0, 0, false⟩ =
    (bandForm 0 1 1024 ++ bandForm 2048 1 1024, ⟨4097, 0, true⟩) :=
  sbRun_add2 64 64 64 2048 2048 ⟨0, 0, false⟩ _ _ _ _
    (sbRun_add2 64 64 64 1024 1024 ⟨0, 0, false⟩ _ _ _ _ sb64F64a sb64F64b)
    (sbRun_add2 64 64 64 1024 1024 ⟨2048, 0, false⟩ _ _ _ _ sb64F64c sb64F64d)

theorem ord32F64 : calculate_tilemap_order 64 32 64 = bandForm 0 1 1024 ∧
    sbStopped 64 32 64 := by
  constructor
  · show (sbRun 64 32 64 (64 * 32) ⟨0, 0, false⟩).1 = _
    rw [ordRun32F64]
  · show ¬ ((sbRun 64 32 64 (64 * 32) ⟨0, 0, false⟩).2.i < 64 * 32)
    rw [ordRun32F64]
    decide

theorem ord64F64 : calculate_tilemap_order 64 64 64 =
    bandForm 0 1 1024 ++ bandForm 2048 1 1024 ∧ sbStopped 64 64 64 := by
  constructor
  · show (sbRun 64 64 64 (64 * 64) ⟨0, 0, false⟩).1 = _
    rw [ordRun64F64]
  · show ¬ ((sbRun 64 64 64 (64 * 64) ⟨0, 0, false⟩).2.i < 64 * 64)
    rw [ordRun64F64]
    decide

end Butano

namespace Butano

/-- A two-tile test atlas (2 columns, 1 row): the second tile is the first
mirrored top to bottom, so deduplication marks cell 1 as a vertical flip of
cell 0. -/
def imgV : Image := fun x y =>
  if x < 8 then (x % 8, y % 8, 0) else (x % 8, (7 - y % 8) % 8, 0)

/-- A constant one-tile atlas used to exhibit the canvas fill color. -/
def imgC : Image := fun _ _ => (1, 2, 3)

/-- A constant atlas whose single color is not black, exercising the
minimizer's conditional palette slot 0 rewrite. -/
def imgC1 : Image := fun _ _ => (1, 1, 1)

/-- Record table of the witness atlas after deduplication. -/
def wRecs : DedupMap := (compare_tiles imgV 2 1).1

/-- Packed canvas and annotated records of the witness atlas. -/
def wPacked : Image × DedupMap := create_rgb_tilemap_image imgV 2 1 128 128 wRecs

/-- Final hardware code of cell 1 of the witness atlas. -/
def wCode : Nat := resolveCode wPacked.2 2 1

theorem claim_C1_witness :
    wPacked.1 ((wCode % 1024 % (128 / 8)) * 8 +
        (if (wCode / 1024) % 2 = 1 then 7 - 0 else 0))
      ((wCode % 1024 / (128 / 8)) * 8 + (if wCode / 2048 = 1 then 7 - 0 else 0)) =
      tileAt imgV 2 1 0 0 :=
  claim_C1_roundtrip imgV 2 1 (by decide) 128 128 (by decide) 1 0 0 (by decide)
    (by decide) (by decide) wPacked.1 wPacked.2 wCode rfl rfl rfl

theorem leftHalfBand_eq (base : Nat) : evenBlocks base 32 32 = leftHalfBand base := by
  unfold leftHalfBand evenBlocks
  congr 1

theorem rightHalfBand_eq (base : Nat) : oddBlocks base 32 32 = rightHalfBand base := by
  unfold rightHalfBand oddBlocks
  congr 1

/-- CLAIM C2 (corrected): screenblock traversal order.  For a 64x32-tile
layer the loop emits the left screenblock (columns 0..31 of all 32 rows, in
raster order) and then the right screenblock, and for 64x64 the same within
each 32-row band — but only because the per-iteration block length w/F is 32
when the tilesize factor F is 2 (the factor of these 8-pixel-tile maps,
hard-coded in create_tilemap_data of tilemap_minimizer.py); the spec's "for
every tilesize factor" is refuted by F = 1. -/
theorem claim_C2_screenblock_order :
    calculate_tilemap_order 64 32 2 = leftHalfBand 0 ++ rightHalfBand 0 ∧
    calculate_tilemap_order 64 64 2 =
      (leftHalfBand 0 ++ rightHalfBand 0) ++
      (leftHalfBand 2048 ++ rightHalfBand 2048) := by
  constructor
  · rw [(ord32F2).1]
    show evenBlocks 0 32 32 ++ oddBlocks 0 32 32 = _
    rw [leftHalfBand_eq 0, rightHalfBand_eq 0]
  · rw [(ord64F2).1]
    show (evenBlocks 0 32 32 ++ oddBlocks 0 32 32) ++
      (evenBlocks 2048 32 32 ++ oddBlocks 2048 32 32) = _
    rw [leftHalfBand_eq 0, rightHalfBand_eq 0, leftHalfBand_eq 2048,
      rightHalfBand_eq 2048]

set_option maxRecDepth 100000 in
/-- Concrete refutation of the universally quantified form of claim C2: with
tilesize factor 1 the loop interleaves whole 64-cell rows (even rows of the
band before odd rows), and already position 32 of the emission differs from
the left-then-right screenblock fixture. -/
theorem claim_C2_counterexample :
    calculate_tilemap_order 64 32 1 ≠ leftHalfBand 0 ++ rightHalfBand 0 ∧
    (calculate_tilemap_order 64 32 1).getD 32 0 = 32 ∧
    (leftHalfBand 0 ++ rightHalfBand 0).getD 32 0 = 64 := by
  refine ⟨?_, ?_, ?_⟩
  · rw [(ord32F1).1]
    decide
  · rw [(ord32F1).1]
    decide
  · decide

/-- CLAIM C3 (corrected): capacity tier sizing.  The code computes the
variable tier dimension as int((U-256)/16+1)*8 — floor division plus one —
not the spec's ceil((U-256)/16)*8; the two differ exactly when the divisor
divides evenly.  The exact tiers: width 128+((U-256)/16+1)*8 at height 128
for 256 < U <= 512, height 128+((U-512)/32+1)*8 at width 256 for
512 < U <= 960, nothing above 960; in particular 960 unique tiles are sized
to a 256x248 canvas, not the spec's 256x240. -/
theorem claim_C3_capacity_tiers (U : Nat) :
    (U ≤ 256 → get_tilemap_size U = some (128, 128)) ∧
    (256 < U → U ≤ 512 →
      get_tilemap_size U = some (128 + ((U - 256) / 16 + 1) * 8, 128)) ∧
    (512 < U → U ≤ 960 →
      get_tilemap_size U = some (256, 128 + ((U - 512) / 32 + 1) * 8)) ∧
    (960 < U → get_tilemap_size U = none) ∧
    get_tilemap_size 960 = some (256, 248) := by
  refine ⟨?_, ?_, ?_, ?_, by decide⟩
  · intro h
    unfold get_tilemap_size
    rw [if_pos h]
  · intro h1 h2
    unfold get_tilemap_size
    rw [if_neg (by omega), if_pos h2]
  · intro h1 h2
    unfold get_tilemap_size
    rw [if_neg (by omega), if_neg (by omega), if_pos h2]
  · intro h
    unfold get_tilemap_size
    rw [if_neg (by omega), if_neg (by omega), if_neg (by omega)]

/-- Concrete mismatch against the spec's ceiling formula: 960 unique tiles
are sized to a 256x248 canvas, while the spec's 128 + ceil((960-512)/32)*8
is 128 + 14*8 = 240. -/
theorem claim_C3_counterexample :
    get_tilemap_size 960 = some (256, 248) ∧ 128 + 14 * 8 ≠ 248 := by
  constructor
  · decide
  · decide

/-- CLAIM C4 (confirmed): the tile capacity error.  create_compressed_tileset
raises OverflowError exactly when the deduplicated unique-tile count exceeds
960 (so 960 succeeds, 961 fails), the raised value carries that count, the
error is distinct from every other failure kind of the pipeline (SystemExit,
ValueError, UnboundLocalError), and create_tilemap re-raises it for a single
map but turns it into the recoverable (None, None, False) result for a
consolidated multi-map atlas. -/
theorem claim_C4_capacity_error (img : Image) (cols rows : Nat)
    (cached : DedupMap × Nat) :
    ((∃ n, create_compressed_tileset img cols rows = .error (.overflowError n)) ↔
      960 < (compare_tiles img cols rows).2) ∧
    (∀ n, create_compressed_tileset img cols rows = .error (.overflowError n) →
      n = (compare_tiles img cols rows).2) ∧
    (∀ n m, PyError.overflowError n ≠ PyError.systemExit m) ∧
    (∀ n, PyError.overflowError n ≠ PyError.valueError) ∧
    (∀ n, PyError.overflowError n ≠ PyError.unboundLocal) ∧
    (960 < (compare_tiles img cols rows).2 →
      create_tilemap img cols rows false true cached =
        .error (.overflowError (compare_tiles img cols rows).2) ∧
      create_tilemap img cols rows true true cached = .ok (none, none, false)) := by
  refine ⟨create_compressed_tileset_overflow_iff img cols rows, ?_,
    fun n m h => PyError.noConfusion h, fun n h => PyError.noConfusion h,
    fun n h => PyError.noConfusion h, ?_⟩
  · intro n hn
    have hov : 960 < (compare_tiles img cols rows).2 :=
      (create_compressed_tileset_overflow_iff img cols rows).1 ⟨n, hn⟩
    have hofl := create_compressed_tileset_overflow img cols rows hov
    rw [hofl] at hn
    simp only [Except.error.injEq, PyError.overflowError.injEq] at hn
    exact hn.symm
  · intro hov
    constructor
    · rw [create_tilemap_eq, if_neg (by simp),
        create_compressed_tileset_overflow img cols rows hov]
      rfl
    · rw [create_tilemap_eq, if_pos ⟨rfl, hov⟩]

/-- CLAIM C5 (confirmed): canonical-reference invariant.  In the record
table produced by deduplication, every record marked non-unique names via its
relative (col,row) pair a cell whose own record is still unique and whose
raster index row*columns+col is strictly smaller than the referring cell. -/
theorem claim_C5_canonical_reference (img : Image) (cols rows t : Nat)
    (hnu : ((compare_tiles img cols rows).1 t).unique = false) :
    ((compare_tiles img cols rows).1
      (((compare_tiles img cols rows).1 t).relative.2 * cols +
       ((compare_tiles img cols rows).1 t).relative.1)).unique = true ∧
    ((compare_tiles img cols rows).1 t).relative.2 * cols +
      ((compare_tiles img cols rows).1 t).relative.1 < t := by
  obtain ⟨p, hpt, hpc, hpu, hrel, hcls, hcnt⟩ :=
    (compare_tiles_inv img cols rows).canonical t hnu
  have hco : ((compare_tiles img cols rows).1 t).relative.1 = p % cols := by
    rw [hrel]
  have hro : ((compare_tiles img cols rows).1 t).relative.2 = p / cols := by
    rw [hrel]
  rw [hco, hro, div_mul_add_mod]
  exact ⟨hpu, hpt⟩

theorem claim_C5_witness :
    ((compare_tiles imgV 2 1).1
      (((compare_tiles imgV 2 1).1 1).relative.2 * 2 +
       ((compare_tiles imgV 2 1).1 1).relative.1)).unique = true ∧
    ((compare_tiles imgV 2 1).1 1).relative.2 * 2 +
      ((compare_tiles imgV 2 1).1 1).relative.1 < 1 :=
  claim_C5_canonical_reference imgV 2 1 1 (by decide)

/-- CLAIM C6 (confirmed): the running duplicate counter.  After packing,
each cell's non_unique_tile_count equals the number of non-unique cells at
or before it in raster order, so the sequence read along the raster is
monotonically non-decreasing. -/
theorem claim_C6_running_counter (img : Image) (cols rows W H : Nat)
    (hW8 : W % 8 = 0) (hWt : 0 < W / 8) (t u : Nat) (htu : t ≤ u)
    (hu : u < rows * cols) :
    TileRec.non_unique_tile_count
        ((create_rgb_tilemap_image img cols rows W H
            (compare_tiles img cols rows).1).2 t) =
      countNonUniq (compare_tiles img cols rows).1 (t + 1) ∧
    TileRec.non_unique_tile_count
        ((create_rgb_tilemap_image img cols rows W H
            (compare_tiles img cols rows).1).2 t) ≤
      TileRec.non_unique_tile_count
        ((create_rgb_tilemap_image img cols rows W H
            (compare_tiles img cols rows).1).2 u) := by
  have ht : t < rows * cols := Nat.lt_of_le_of_lt htu hu
  have hst := create_rgb_recs_spec img cols rows W H
    (compare_tiles img cols rows).1 hW8 hWt t
  have hsu := create_rgb_recs_spec img cols rows W H
    (compare_tiles img cols rows).1 hW8 hWt u
  rw [if_pos ht] at hst
  rw [if_pos hu] at hsu
  rw [hst, hsu]
  exact ⟨rfl, countNonUniq_mono _ (t + 1) (u + 1) (by omega)⟩

theorem claim_C6_witness :
    TileRec.non_unique_tile_count
        ((create_rgb_tilemap_image imgV 2 1 128 128
            (compare_tiles imgV 2 1).1).2 0) =
      countNonUniq (compare_tiles imgV 2 1).1 (0 + 1) ∧
    TileRec.non_unique_tile_count
        ((create_rgb_tilemap_image imgV 2 1 128 128
            (compare_tiles imgV 2 1).1).2 0) ≤
      TileRec.non_unique_tile_count
        ((create_rgb_tilemap_image imgV 2 1 128 128
            (compare_tiles imgV 2 1).1).2 1) :=
  claim_C6_running_counter imgV 2 1 128 128 (by decide) (by decide) 0 1
    (by decide) (by decide)

/-- CLAIM C7 (confirmed): flip classification and priority.  The transform
chain of compare_tiles tests plain equality, the vertical mirror, the
180-degree rotation and the horizontal mirror in that fixed order, and the
first match decides the flags: a vertical-mirror match that is not a plain
match yields (h,v) = (false,true), a 180-degree match below it yields
(true,true), a horizontal-mirror match last yields (true,false); and every
cell marked non-unique carries exactly the flag pair the chain assigned
against its canonical candidate tile. -/
theorem claim_C7_flip_classification (tile ct img : Image) (cols rows t : Nat) :
    (EqOn8 tile ct → classify tile ct = some (false, false)) ∧
    (¬ EqOn8 tile ct → EqOn8 tile (flipTB ct) →
      classify tile ct = some (false, true)) ∧
    (¬ EqOn8 tile ct → ¬ EqOn8 tile (flipTB ct) → EqOn8 tile (rotate180 ct) →
      classify tile ct = some (true, true)) ∧
    (¬ EqOn8 tile ct → ¬ EqOn8 tile (flipTB ct) → ¬ EqOn8 tile (rotate180 ct) →
      EqOn8 tile (flipTB (rotate180 ct)) →
      classify tile ct = some (true, false)) ∧
    (((compare_tiles img cols rows).1 t).unique = false →
      ∃ p, p < t ∧
        ((compare_tiles img cols rows).1 t).relative = (p % cols, p / cols) ∧
        classify (tileAt img cols p) (tileAt img cols t) =
          some (((compare_tiles img cols rows).1 t).h_flipped,
                ((compare_tiles img cols rows).1 t).v_flipped)) := by
  refine ⟨?_, ?_, ?_, ?_, ?_⟩
  · intro h1
    unfold classify
    rw [if_pos ((tile_compare_iff tile ct).2 h1)]
  · intro h1 h2
    unfold classify
    rw [if_neg (fun hc => h1 ((tile_compare_iff tile ct).1 hc)),
      if_pos ((tile_compare_iff tile (flipTB ct)).2 h2)]
  · intro h1 h2 h3
    unfold classify
    rw [if_neg (fun hc => h1 ((tile_compare_iff tile ct).1 hc)),
      if_neg (fun hc => h2 ((tile_compare_iff tile (flipTB ct)).1 hc)),
      if_pos ((tile_compare_iff tile (rotate180 ct)).2 h3)]
  · intro h1 h2 h3 h4
    unfold classify
    rw [if_neg (fun hc => h1 ((tile_compare_iff tile ct).1 hc)),
      if_neg (fun hc => h2 ((tile_compare_iff tile (flipTB ct)).1 hc)),
      if_neg (fun hc => h3 ((tile_compare_iff tile (rotate180 ct)).1 hc)),
      if_pos ((tile_compare_iff tile (flipTB (rotate180 ct))).2 h4)]
  · intro hnu
    obtain ⟨p, hpt, hpc, hpu, hrel, hcls, hcnt⟩ :=
      (compare_tiles_inv img cols rows).canonical t hnu
    exact ⟨p, hpt, hrel, hcls⟩

/-- CLAIM C8 (corrected): palette slot 0 and bit depth.  The compressor's
palette extractor overwrites slot 0 with (255,0,255) unconditionally and
reports 4 bits per pixel exactly when the palette holds at most 16 colors,
else 8 — but the minimizer's variant rewrites slot 0 only when the first
collected color is black, so "always sets palette slot 0" fails for it
(claim_C8_counterexample). -/
theorem claim_C8_palette (imgf : Image) (W H : Nat) :
    (∀ pl bpp, create_tilemap_palette_c imgf W H = .ok (pl, bpp) →
      (0 < pl.length → pl.getD 0 (0, 0, 0) = (255, 0, 255)) ∧
      bpp = (if pl.length ≤ 16 then 4 else 8)) ∧
    (∀ pl, create_tilemap_palette_m imgf W H = .ok pl →
      pl = (if (build_palette_list imgf W H).getD 0 (255, 0, 255) = (0, 0, 0)
            then (build_palette_list imgf W H).set 0 (255, 0, 255)
            else build_palette_list imgf W H)) := by
  constructor
  · intro pl bpp hok
    simp only [create_tilemap_palette_c] at hok
    split_ifs at hok with hle hbpp
    · simp only [Except.ok.injEq, Prod.mk.injEq] at hok
      obtain ⟨rfl, rfl⟩ := hok
      refine ⟨?_, ?_⟩
      · cases hbl : build_palette_list imgf W H with
        | nil =>
            intro hlen
            exact absurd hlen (by decide)
        | cons c cs =>
            intro hlen
            rfl
      · rw [if_pos hbpp]
    · simp only [Except.ok.injEq, Prod.mk.injEq] at hok
      obtain ⟨rfl, rfl⟩ := hok
      refine ⟨?_, ?_⟩
      · cases hbl : build_palette_list imgf W H with
        | nil =>
            intro hlen
            exact absurd hlen (by decide)
        | cons c cs =>
            intro hlen
            rfl
      · rw [if_neg hbpp]
  · intro pl hok
    simp only [create_tilemap_palette_m] at hok
    split_ifs at hok with hle hblack
    · simp only [Except.ok.injEq] at hok
      obtain ⟨h1, h2, h3⟩ := hblack
      rw [if_pos (Prod.ext h1 (Prod.ext h2 h3))]
      exact hok.symm
    · simp only [Except.ok.injEq] at hok
      rw [if_neg (fun heq => hblack ⟨by rw [heq], by rw [heq], by rw [heq]⟩)]
      exact hok.symm

set_option maxRecDepth 10000 in
/-- Concrete refutation of the unconditional slot 0 rewrite for the
minimizer variant: on a constant (1,1,1) atlas the returned palette keeps
(1,1,1) in slot 0. -/
theorem claim_C8_counterexample :
    create_tilemap_palette_m imgC1 8 8 = .ok [(1, 1, 1)] ∧
    ((1, 1, 1) : Color) ≠ (255, 0, 255) := by
  constructor
  · rfl
  · decide

/-- CLAIM C9 (corrected): compacted canvas fill.  The packed canvas is
created filled with the color of the original image's pixel (0,0) — the
Image.new fill argument — not with the sentinel (255,0,255): every canvas
pixel not covered by a packed unique tile equals img(0,0), and
claim_C9_counterexample exhibits a non-sentinel fill. -/
theorem claim_C9_canvas_fill (img : Image) (cols rows W H : Nat)
    (recs0 : DedupMap) (hW8 : W % 8 = 0) (hWt : 0 < W / 8) (x y : Nat)
    (huncov : ¬ (x < W ∧ y < H ∧
      (y / 8) * (W / 8) + x / 8 < countUniq recs0 (rows * cols))) :
    (create_rgb_tilemap_image img cols rows W H recs0).1 x y = img 0 0 := by
  rw [create_rgb_canvas_spec img cols rows W H recs0 hW8 hWt x y, if_neg huncov]

theorem claim_C9_witness :
    (create_rgb_tilemap_image imgC 1 1 128 128
        (compare_tiles imgC 1 1).1).1 8 0 = imgC 0 0 :=
  claim_C9_canvas_fill imgC 1 1 128 128 (compare_tiles imgC 1 1).1
    (by decide) (by decide) 8 0 (by decide)

/-- Concrete non-sentinel fill: for a constant (1,2,3) atlas the uncovered
canvas pixel (8,0) keeps the fill color (1,2,3), which is not the sentinel
(255,0,255). -/
theorem claim_C9_counterexample :
    (create_rgb_tilemap_image imgC 1 1 128 128
        (compare_tiles imgC 1 1).1).1 8 0 = (1, 2, 3) ∧
    ((1, 2, 3) : Color) ≠ (255, 0, 255) :=
  ⟨rfl, by decide⟩

/-- CLAIM C10 (confirmed): the emission loop is a permutation.  For any
positive tile dimensions with the tilesize factor dividing the width (every
configuration the generator produces), the while loop of
calculate_tilemap_data — identically MapObject.calculate_tilemap_data —
stops with the cursor at or beyond w*h after exactly w*h iterations, and
the emitted linear positions are a permutation of 0..w*h-1: one
HardwareCode per cell, in both the raster and the screenblock regimes. -/
theorem claim_C10_permutation (w h F : Nat) (hw : 0 < w) (hh : 0 < h)
    (hF : F ∣ w) :
    (calculate_tilemap_order w h F).Perm (List.range (w * h)) ∧
    sbStopped w h F := by
  by_cases hsb : w = 64 ∧ (h = 32 ∨ h = 64)
  · obtain ⟨rfl, hh2⟩ := hsb
    have hFle : F ≤ 64 := Nat.le_of_dvd (by norm_num) hF
    have key : ∀ f : Nat, f ≤ 64 → f ∣ 64 →
        f = 1 ∨ f = 2 ∨ f = 4 ∨ f = 8 ∨ f = 16 ∨ f = 32 ∨ f = 64 := by decide
    have henum := key F hFle hF
    rcases hh2 with rfl | rfl
    · rcases henum with rfl | rfl | rfl | rfl | rfl | rfl | rfl
      · refine ⟨?_, (ord32F1).2⟩
        rw [(ord32F1).1, show (64 * 32 : Nat) = 2048 from rfl]
        exact bandPerm2048 64 16 (by norm_num)
      · refine ⟨?_, (ord32F2).2⟩
        rw [(ord32F2).1, show (64 * 32 : Nat) = 2048 from rfl]
        exact bandPerm2048 32 32 (by norm_num)
      · refine ⟨?_, (ord32F4).2⟩
        rw [(ord32F4).1, show (64 * 32 : Nat) = 2048 from rfl]
        exact bandPerm2048 16 64 (by norm_num)
      · refine ⟨?_, (ord32F8).2⟩
        rw [(ord32F8).1, show (64 * 32 : Nat) = 2048 from rfl]
        exact bandPerm2048 8 128 (by norm_num)
      · refine ⟨?_, (ord32F16).2⟩
        rw [(ord32F16).1, show (64 * 32 : Nat) = 2048 from rfl]
        exact bandPerm2048 4 256 (by norm_num)
      · refine ⟨?_, (ord32F32).2⟩
        rw [(ord32F32).1, show (64 * 32 : Nat) = 2048 from rfl]
        exact bandPerm2048 2 512 (by norm_num)
      · refine ⟨?_, (ord32F64).2⟩
        rw [(ord32F64).1, show (64 * 32 : Nat) = 2048 from rfl]
        exact bandPerm2048 1 1024 (by norm_num)
    · rcases henum with rfl | rfl | rfl | rfl | rfl | rfl | rfl
      · refine ⟨?_, (ord64F1).2⟩
        rw [(ord64F1).1, show (64 * 64 : Nat) = 4096 from rfl]
        exact bandPerm4096 64 16 (by norm_num)
      · refine ⟨?_, (ord64F2).2⟩
        rw [(ord64F2).1, show (64 * 64 : Nat) = 4096 from rfl]
        exact bandPerm4096 32 32 (by norm_num)
      · refine ⟨?_, (ord64F4).2⟩
        rw [(ord64F4).1, show (64 * 64 : Nat) = 4096 from rfl]
        exact bandPerm4096 16 64 (by norm_num)
      · refine ⟨?_, (ord64F8).2⟩
        rw [(ord64F8).1, show (64 * 64 : Nat) = 4096 from rfl]
        exact bandPerm4096 8 128 (by norm_num)
      · refine ⟨?_, (ord64F16).2⟩
        rw [(ord64F16).1, show (64 * 64 : Nat) = 4096 from rfl]
        exact bandPerm4096 4 256 (by norm_num)
      · refine ⟨?_, (ord64F32).2⟩
        rw [(ord64F32).1, show (64 * 64 : Nat) = 4096 from rfl]
        exact bandPerm4096 2 512 (by norm_num)
      · refine ⟨?_, (ord64F64).2⟩
        rw [(ord64F64).1, show (64 * 64 : Nat) = 4096 from rfl]
        exact bandPerm4096 1 1024 (by norm_num)
  · obtain ⟨h1, h2⟩ := sbRun_raster w h F hsb (w * h) ⟨0, 0, false⟩
    constructor
    · show ((sbRun w h F (w * h) ⟨0, 0, false⟩).1).Perm (List.range (w * h))
      rw [h1]
      have hm : min (w * h) (w * h - (⟨0, 0, false⟩ : SbState).i) = w * h := by
        show min (w * h) (w * h - 0) = w * h
        omega
      rw [hm, List.range_eq_range']
    · show ¬ ((sbRun w h F (w * h) ⟨0, 0, false⟩).2.i < w * h)
      rw [h2]
      show ¬ (0 + min (w * h) (w * h - 0) < w * h)
      omega

theorem claim_C10_witness :
    (calculate_tilemap_order 3 2 1).Perm (List.range (3 * 2)) ∧
    sbStopped 3 2 1 :=
  claim_C10_permutation 3 2 1 (by decide) (by decide) (by decide)

end Butano
